import Mathlib

/-!
# WireGuard send path and peer lifetime: a shallow embedding

The definitions below embed `src/src/send.c` and `src/src/peer.c` as pure
state-passing functions over one peer of one device; the device encrypt queue
holds the batches of that peer.

* Kernel 64-bit quantities (`jiffies`, the atomic send counter) are naturals
  with explicit reduction modulo `2 ^ 64`; `jiffies` is read once per call.
* Pointers to keypairs and to batches (`crypt_ctx`) are addresses into two heaps.
* Calls into collaborators whose bodies are outside the two files (timers,
  socket, the crypt-queue helpers) are recorded, in call order, in the
  `events` log of the state.
* Results that the environment decides (allocation, AEAD, socket return codes)
  are read from an `Env` record of oracles.
* A dereference of a `NULL` peer, a reference-count underflow and a `list_del`
  of an entry that is already unlinked set the `fault` flag of the state.
* The two worker loops run on fuel equal to the length of their queue; the
  theorems `encrypt_worker_drains` and `tx_worker_loop_spec` show that the
  fuel is enough.
-/

namespace WireGuard

/-! ## Machine arithmetic and the jiffies comparisons of linux/jiffies.h -/

/-- The modulus of 64-bit unsigned arithmetic. -/
def U64 : Nat := 2 ^ 64

/-- Unsigned 64-bit addition. -/
def add64 (a b : Nat) : Nat := (a + b) % U64

/-- Unsigned 64-bit subtraction. -/
def sub64 (a b : Nat) : Nat := (a % U64 + U64 - b % U64) % U64

/-- The test `(__s64)x < 0` on a 64-bit pattern. -/
def s64_neg (x : Nat) : Bool := decide (2 ^ 63 ≤ x % U64)

/-- The kernel's `time_after64(a, b)`, that is `(__s64)(b - a) < 0`. -/
def time_after64 (a b : Nat) : Bool := s64_neg (sub64 b a)

/-- The kernel's `time_after_eq64(a, b)`, that is `(__s64)(a - b) >= 0`. -/
def time_after_eq64 (a b : Nat) : Bool := !s64_neg (sub64 a b)

/-- The kernel's `time_is_before_jiffies64(a)` read at jiffies value `now`. -/
def time_is_before_jiffies64 (now a : Nat) : Bool := time_after64 now a

/-- The kernel's `time_is_before_eq_jiffies64(a)` read at jiffies value `now`. -/
def time_is_before_eq_jiffies64 (now a : Nat) : Bool := time_after_eq64 now a

/-! ## Data model -/

/-- Constants of `messages.h`, which is not among the sources: parameters. -/
structure Consts where
  REKEY_AFTER_MESSAGES : Nat
  REJECT_AFTER_MESSAGES : Nat
  REKEY_AFTER_TIME : Nat
  REJECT_AFTER_TIME : Nat
  REKEY_TIMEOUT : Nat
  /-- The value of `sizeof(struct message_data)`. -/
  sizeof_message_data : Nat
  /-- The value of `noise_encrypted_len(0)`, the length of the auth tag. -/
  NOISE_AUTHTAG_LEN : Nat

/-- The macro `noise_encrypted_len(plain_len)`. -/
def noise_encrypted_len (K : Consts) (plain_len : Nat) : Nat := plain_len + K.NOISE_AUTHTAG_LEN

/-- The macro `message_data_len(plain_len)`. -/
def message_data_len (K : Consts) (plain_len : Nat) : Nat :=
  noise_encrypted_len K plain_len + K.sizeof_message_data

/-- The fields of `struct sk_buff` and of `PACKET_CB(skb)` the send path touches. -/
structure Skb where
  /-- The datagram itself (abstract identity of the payload). -/
  data : Nat
  /-- The field `skb->len`. -/
  len : Nat
  /-- The owning socket `skb->sk`, cleared by `skb_orphan`. -/
  sk : Option Nat
  /-- The field `PACKET_CB(skb)->nonce`. -/
  nonce : Nat
  /-- The field `PACKET_CB(skb)->ds`. -/
  ds : Nat
  /-- The wire header written by `skb_encrypt`: `(key_idx, counter)`. -/
  header : Option (Nat × Nat)
  deriving DecidableEq, Repr

/-- The structure `noise_symmetric_key` (sending half). -/
structure SymmetricKey where
  counter : Nat
  birthdate : Nat
  is_valid : Bool
  deriving DecidableEq, Repr

/-- The structure `noise_keypair`. -/
structure Keypair where
  sending : SymmetricKey
  i_am_the_initiator : Bool
  remote_index : Nat
  refcount : Nat
  /-- Set when the last reference is dropped (`keypair_free_kref`). -/
  freed : Bool
  deriving DecidableEq, Repr

/-- The structure `crypt_ctx`; `ctx->peer` is the one modelled peer. -/
structure CryptCtx where
  keypair : Nat
  packets : List Skb
  is_finished : Bool
  deriving DecidableEq, Repr

/-- Calls into collaborators, logged in call order. -/
inductive Event where
  | timers_any_authenticated_packet_traversal
  | timers_data_sent
  | timers_handshake_initiated
  | timers_stop
  /-- The call `socket_send_skb_to_peer(peer, skb, ds)` and its return value. -/
  | socket_send_skb_to_peer (skb : Skb) (ret : Int)
  /-- The call `socket_send_buffer_to_peer` of a handshake initiation, at `jiffies`. -/
  | socket_send_handshake_initiation (jiffies : Nat)
  /-- A successful `queue_enqueue_per_device_and_peer` of `ctx`. -/
  | queue_enqueue (ctx : Nat)
  /-- The call `queue_dequeue` that takes `ctx` off the peer tx queue. -/
  | queue_dequeue (ctx : Nat)
  /-- The call `kmem_cache_free(crypt_ctx_cache, ctx)`. -/
  | kmem_cache_free (ctx : Nat)
  deriving DecidableEq, Repr

/-- Decisions of the environment. -/
structure Env where
  /-- Whether the `n`-th `kmem_cache_alloc` of a `crypt_ctx` succeeds. -/
  kmem_cache_alloc : Nat → Bool
  /-- Whether `queue_enqueue_per_device_and_peer` accepts the batch `ctx`. -/
  queue_enqueue_ok : Nat → Bool
  /-- The value of `ip_tunnel_ecn_encap(0, ip_hdr(skb), skb)`. -/
  ip_tunnel_ecn_encap : Skb → Nat
  /-- The value of `skb_padding(skb)`. -/
  skb_padding : Skb → Nat
  /-- The value of `skb_cow_data(skb, trailer_len, &trailer)`. -/
  skb_cow_data : Skb → Nat → Int
  /-- The value of `ARRAY_SIZE(sg)`. -/
  sg_size : Nat
  /-- The value of `skb_cow_head(skb, DATA_PACKET_HEAD_ROOM)`. -/
  skb_cow_head : Skb → Int
  /-- The value of `skb_to_sgvec` on the expanded packet. -/
  skb_to_sgvec : Skb → Int
  /-- The result of `chacha20poly1305_encrypt_sg`. -/
  chacha20poly1305_encrypt_sg : Skb → Bool
  /-- The return value of `socket_send_skb_to_peer` (0 on success). -/
  socket_send_skb_to_peer : Skb → Int
  /-- The result of `noise_handshake_create_initiation` at a jiffies value. -/
  noise_handshake_create_initiation : Nat → Bool

/-- One peer (`struct wireguard_peer`), the device state it touches
(`struct wireguard_device`), the heaps of keypairs and batches, and the log. -/
structure State where
  /-- The field `peer->internal_id`. -/
  internal_id : Nat
  /-- The field `peer->refcount`. -/
  refcount : Nat
  /-- Set by `kref_release`, which hands the peer to `call_rcu_bh(rcu_release)`. -/
  released : Bool
  /-- The opaque handshake state; `none` once `noise_handshake_clear` ran. -/
  handshake : Option Nat
  last_sent_handshake : Nat
  timer_handshake_attempts : Nat
  /-- The pointer `peer->keypairs.current_keypair`. -/
  current_keypair : Option Nat
  staged_packet_queue : List Skb
  /-- The peer serial queue `peer->tx_queue`, head first, as batch pointers. -/
  tx_queue : List Nat
  /-- Whether `peer->transmit_handshake_work` is pending on `handshake_send_wq`. -/
  transmit_handshake_work : Bool
  /-- The device queue `wg->encrypt_queue`, head first, as batch pointers. -/
  encrypt_queue : List Nat
  /-- The list `wg->peer_list`, as peer ids. -/
  peer_list : List Nat
  /-- Whether the entry `peer->peer_list` is linked into `wg->peer_list`; once `list_del`
  has run, its two pointers are the poison values. -/
  peer_list_linked : Bool
  /-- The registry `wg->peer_hashtable`, as peer ids. -/
  peer_hashtable : List Nat
  /-- The table `wg->peer_routing_table`, as (prefix, peer id) entries. -/
  peer_routing_table : List (Nat × Nat)
  /-- The heap of `noise_keypair` objects. -/
  keypairs : Nat → Keypair
  /-- The heap of `crypt_ctx` objects. -/
  ctxs : Nat → CryptCtx
  /-- The number of `kmem_cache_alloc` calls so far; also the next address. -/
  next_ctx : Nat
  events : List Event
  fault : Bool

/-! ## peer.c -/

/-- The function `peer_get`: `kref_get_unless_zero`; `none` is `NULL`. -/
def peer_get (s : State) : Option State :=
  if s.refcount = 0 then none else some { s with refcount := s.refcount + 1 }

/-- The function `peer_rcu_get`. -/
def peer_rcu_get (s : State) : Option State := peer_get s

/-- The callback `kref_release`, which schedules `rcu_release`. -/
def kref_release (s : State) : State := { s with released := true }

/-- The function `peer_put` on a non-`NULL` peer: `kref_put(&peer->refcount, kref_release)`.
A put on a zero count is a reference-count underflow. -/
def peer_put (s : State) : State :=
  if s.refcount = 0 then { s with fault := true }
  else
    let s1 := { s with refcount := s.refcount - 1 }
    if s1.refcount = 0 then kref_release s1 else s1

/-- The function `peer_total_count`. -/
def peer_total_count (s : State) : Nat := s.peer_list.length

/-! ## noise.c (keypair references) -/

/-- Modelled from the spec: `noise_keypair_get` of `noise.c` is not among the sources.
"Snapshots the current sending keypair (reference bumped under a read-side critical
section)"; like `peer_get` it yields `NULL` on a `NULL` pointer or a zero count. -/
def noise_keypair_get (keypair : Option Nat) (s : State) : Option Nat × State :=
  match keypair with
  | none => (none, s)
  | some k =>
    if (s.keypairs k).refcount = 0 then (none, s)
    else
      (some k, { s with keypairs := (Function.update s.keypairs k
        { s.keypairs k with refcount := (s.keypairs k).refcount + 1 }) })

/-- Modelled from the spec: `noise_keypair_put` of `noise.c` is not among the sources.
It releases one keypair reference ("destruction follows when refcount hits zero");
like `peer_put` it does nothing on `NULL`. -/
def noise_keypair_put (keypair : Option Nat) (s : State) : State :=
  match keypair with
  | none => s
  | some k =>
    let kp := s.keypairs k
    if kp.refcount = 0 then { s with fault := true }
    else
      { s with keypairs := (Function.update s.keypairs k
        { kp with refcount := kp.refcount - 1, freed := kp.freed || decide (kp.refcount - 1 = 0) }) }

/-! ## send.c: handshake initiation -/

/-- The function `packet_send_handshake_initiation` (send.c 19-39), run at jiffies `now`. -/
def packet_send_handshake_initiation (K : Consts) (E : Env) (now : Nat) (s : State) : State :=
  if !time_is_before_jiffies64 now (add64 s.last_sent_handshake K.REKEY_TIMEOUT) then
    s
  else
    let s1 := { s with last_sent_handshake := now }
    if E.noise_handshake_create_initiation now then
      { s1 with events := s1.events ++
          [Event.timers_any_authenticated_packet_traversal,
           Event.socket_send_handshake_initiation now,
           Event.timers_handshake_initiated] }
    else s1

/-- The function `packet_handshake_send_worker` (send.c 41-46). -/
def packet_handshake_send_worker (K : Consts) (E : Env) (now : Nat) (s : State) : State :=
  peer_put (packet_send_handshake_initiation K E now s)

/-- The function `packet_send_queued_handshake_initiation` (send.c 48-62).
The call `queue_work` returns false when the work is already pending. -/
def packet_send_queued_handshake_initiation (K : Consts) (now : Nat) (is_retry : Bool)
    (s : State) : State :=
  let s1 := if !is_retry then { s with timer_handshake_attempts := 0 } else s
  if !time_is_before_jiffies64 now (add64 s1.last_sent_handshake K.REKEY_TIMEOUT) then
    s1
  else
    match peer_rcu_get s1 with
    | none => { s1 with fault := true }
    | some s2 =>
      if !s2.transmit_handshake_work then { s2 with transmit_handshake_work := true }
      else peer_put s2

/-- The workqueue `handshake_send_wq` running the peer's pending work item, if any. -/
def run_handshake_send_wq (K : Consts) (E : Env) (now : Nat) (s : State) : State :=
  if s.transmit_handshake_work then
    packet_handshake_send_worker K E now { s with transmit_handshake_work := false }
  else s

/-- The function `keep_key_fresh` (send.c 90-105). -/
def keep_key_fresh (K : Consts) (now : Nat) (s : State) : State :=
  let send : Bool :=
    match s.current_keypair with
    | none => false
    | some k =>
      let keypair := s.keypairs k
      keypair.sending.is_valid &&
        (decide (keypair.sending.counter > K.REKEY_AFTER_MESSAGES) ||
         (keypair.i_am_the_initiator &&
          time_is_before_eq_jiffies64 now (add64 keypair.sending.birthdate K.REKEY_AFTER_TIME)))
  if send then packet_send_queued_handshake_initiation K now false s else s

/-! ## send.c: encryption -/

/-- The function `skb_encrypt` (send.c 107-148); `none` is the result `false`. -/
def skb_encrypt (K : Consts) (E : Env) (skb : Skb) (keypair : Keypair) : Option Skb :=
  let padding_len := E.skb_padding skb
  let trailer_len := padding_len + noise_encrypted_len K 0
  let num_frags := E.skb_cow_data skb trailer_len
  if num_frags < 0 ∨ num_frags > (E.sg_size : Int) then none
  else if E.skb_cow_head skb < 0 then none
  else
    let skb1 : Skb :=
      { skb with
        len := K.sizeof_message_data + skb.len + trailer_len
        header := some (keypair.remote_index, skb.nonce) }
    if E.skb_to_sgvec skb1 ≤ 0 then none
    else if E.chacha20poly1305_encrypt_sg skb1 then some skb1 else none

/-- The body of the `while` loop of `packet_encrypt_worker` (send.c 209-222) for the
batch `ctx` taken off the device queue. -/
def encrypt_ctx (K : Consts) (E : Env) (ctx : Nat) (s : State) : State :=
  let c := s.ctxs ctx
  let packets := c.packets.filterMap (fun skb => skb_encrypt K E skb (s.keypairs c.keypair))
  let s1 := { s with ctxs := Function.update s.ctxs ctx { c with packets := packets } }
  match peer_rcu_get s1 with
  | none => { s1 with fault := true }
  | some s2 =>
    let s3 := { s2 with ctxs := (Function.update s2.ctxs ctx
                  { s2.ctxs ctx with is_finished := true }) }
    peer_put s3

/-- Modelled from the spec: `queue_dequeue_per_device` of `queueing.h` is not among the
sources. "A free worker pulls the next batch from the device queue": the head of the
device queue and the state without it, or `none` (`NULL`) on an empty queue. -/
def queue_dequeue_per_device (s : State) : Option (Nat × State) :=
  match s.encrypt_queue with
  | [] => none
  | ctx :: rest => some (ctx, { s with encrypt_queue := rest })

/-- The loop of `packet_encrypt_worker`, with `fuel` bounding the iterations. -/
def packet_encrypt_worker_loop (K : Consts) (E : Env) : Nat → State → State
  | 0, s => s
  | fuel + 1, s =>
    match queue_dequeue_per_device s with
    | none => s
    | some (ctx, s1) => packet_encrypt_worker_loop K E fuel (encrypt_ctx K E ctx s1)

/-- The function `packet_encrypt_worker` (send.c 200-225). -/
def packet_encrypt_worker (K : Consts) (E : Env) (s : State) : State :=
  packet_encrypt_worker_loop K E s.encrypt_queue.length s

/-! ## send.c: serial completion -/

/-- The `skb_queue_walk_safe` loop of `packet_create_data_done` (send.c 176-180):
the socket calls it makes, in order, and the final value of `data_sent`. -/
def send_walk (K : Consts) (E : Env) : List Skb → Bool → List Event × Bool
  | [], data_sent => ([], data_sent)
  | skb :: rest, data_sent =>
    let is_keepalive : Bool := decide (skb.len = message_data_len K 0)
    let ret := E.socket_send_skb_to_peer skb
    let data_sent1 : Bool := if ret = 0 ∧ is_keepalive = false then true else data_sent
    let r := send_walk K E rest data_sent1
    (Event.socket_send_skb_to_peer skb ret :: r.1, r.2)

/-- The function `packet_create_data_done` (send.c 167-185). -/
def packet_create_data_done (K : Consts) (E : Env) (now : Nat) (queue : List Skb)
    (s : State) : State :=
  if queue.isEmpty then s
  else
    let s1 := { s with events := s.events ++ [Event.timers_any_authenticated_packet_traversal] }
    let r := send_walk K E queue false
    let s2 := { s1 with events := s1.events ++ r.1 }
    let s3 := if r.2 then { s2 with events := s2.events ++ [Event.timers_data_sent] } else s2
    keep_key_fresh K now s3

/-- Modelled from the spec: `queue_first_per_peer` of `queueing.h` is not among the
sources. "The serial completion task walks its peer queue from the head": the head of
the peer queue, or `none` (`NULL`) on an empty queue. -/
def queue_first_per_peer (s : State) : Option Nat :=
  match s.tx_queue with
  | [] => none
  | ctx :: _ => some ctx

/-- Modelled from the spec: `queue_dequeue` of `queueing.h` is not among the sources.
It takes the head off the peer queue; the call is logged. -/
def queue_dequeue (s : State) : State :=
  match s.tx_queue with
  | [] => s
  | ctx :: rest => { s with tx_queue := rest, events := s.events ++ [Event.queue_dequeue ctx] }

/-- The body of the `while` loop of `packet_tx_worker` (send.c 193-196) for the head
`ctx` of the peer queue. -/
def tx_ctx (K : Consts) (E : Env) (now : Nat) (ctx : Nat) (s : State) : State :=
  let s1 := queue_dequeue s
  let s2 := packet_create_data_done K E now (s1.ctxs ctx).packets s1
  let s3 := peer_put s2
  { s3 with events := s3.events ++ [Event.kmem_cache_free ctx] }

/-- The loop of `packet_tx_worker`, with `fuel` bounding the iterations. -/
def packet_tx_worker_loop (K : Consts) (E : Env) (now : Nat) : Nat → State → State
  | 0, s => s
  | fuel + 1, s =>
    match queue_first_per_peer s with
    | none => s
    | some ctx =>
      if (s.ctxs ctx).is_finished then
        packet_tx_worker_loop K E now fuel (tx_ctx K E now ctx s)
      else s

/-- The function `packet_tx_worker` (send.c 187-198). -/
def packet_tx_worker (K : Consts) (E : Env) (now : Nat) (s : State) : State :=
  packet_tx_worker_loop K E now s.tx_queue.length s

/-! ## send.c: the staged queue drain -/

/-- Modelled from the spec: `queue_enqueue_per_device_and_peer` of `queueing.h` is not
among the sources. "`enqueue(batch)` appends to the device queue and additionally
appends the batch onto the owning peer's serial tx queue"; the source tests its result,
so it can refuse the batch: `none` is the result `false`. -/
def queue_enqueue_per_device_and_peer (E : Env) (ctx : Nat) (s : State) : Option State :=
  if E.queue_enqueue_ok ctx then
    some { s with
      encrypt_queue := s.encrypt_queue ++ [ctx]
      tx_queue := s.tx_queue ++ [ctx]
      events := s.events ++ [Event.queue_enqueue ctx] }
  else none

/-- The function `packet_create_data` (send.c 227-252), given a non-`NULL` peer. The
address of the new batch is the number of allocations made so far. -/
def packet_create_data (E : Env) (packets : List Skb) (keypair : Nat) (s : State) : State :=
  let ctx := s.next_ctx
  let s1 := { s with next_ctx := s.next_ctx + 1 }
  if !E.kmem_cache_alloc ctx then
    peer_put (noise_keypair_put (some keypair) s1)
  else
    let s2 := { s1 with ctxs := (Function.update s1.ctxs ctx
                  { keypair := keypair, packets := packets, is_finished := false }) }
    match queue_enqueue_per_device_and_peer E ctx s2 with
    | some s3 => s3
    | none =>
      let s3 := { s2 with events := s2.events ++ [Event.kmem_cache_free ctx] }
      peer_put (noise_keypair_put (some keypair) s3)

/-- The nonce walk of `packet_send_staged_packets` (send.c 284-289) from the counter
value `counter`: the packets as left by the walk, the counter after it, and whether
the walk ran to the end (`false` is `goto out_invalid`). -/
def assign_nonces (K : Consts) (E : Env) (counter : Nat) : List Skb → List Skb × Nat × Bool
  | [] => ([], counter, true)
  | skb :: rest =>
    let counter1 := add64 counter 1
    let nonce := sub64 counter1 1
    let skb1 : Skb := { skb with ds := E.ip_tunnel_ecn_encap skb, nonce := nonce }
    if nonce ≥ K.REJECT_AFTER_MESSAGES then (skb1 :: rest, counter1, false)
    else
      let r := assign_nonces K E counter1 rest
      (skb1 :: r.1, r.2.1, r.2.2)

/-- The tail of `packet_send_staged_packets` from the label `out_nokey` (send.c 297-314). -/
def out_nokey (K : Consts) (now : Nat) (keypair : Option Nat) (packets : List Skb)
    (s : State) : State :=
  let s1 := noise_keypair_put keypair s
  let orphaned := packets.map (fun skb => { skb with sk := none })
  let s2 := { s1 with staged_packet_queue := orphaned ++ s1.staged_packet_queue }
  packet_send_queued_handshake_initiation K now false s2

/-- The tail of `packet_send_staged_packets` from the label `out_invalid` (send.c 295-314). -/
def out_invalid (K : Consts) (now : Nat) (keypair : Nat) (packets : List Skb)
    (s : State) : State :=
  let kp := s.keypairs keypair
  let s1 := { s with keypairs := (Function.update s.keypairs keypair
                { kp with sending := { kp.sending with is_valid := false } }) }
  out_nokey K now (some keypair) packets s1

/-- The function `packet_send_staged_packets` (send.c 254-315), run at jiffies `now`. -/
def packet_send_staged_packets (K : Consts) (E : Env) (now : Nat) (s : State) : State :=
  let packets := s.staged_packet_queue
  let s0 := { s with staged_packet_queue := [] }
  if packets.isEmpty then s0
  else
    match noise_keypair_get s0.current_keypair s0 with
    | (none, s1) => out_nokey K now none packets s1
    | (some keypair, s1) =>
      let key := (s1.keypairs keypair).sending
      if !key.is_valid then out_nokey K now (some keypair) packets s1
      else if time_is_before_eq_jiffies64 now (add64 key.birthdate K.REJECT_AFTER_TIME) then
        out_invalid K now keypair packets s1
      else
        let r := assign_nonces K E key.counter packets
        let kp := s1.keypairs keypair
        let s2 := { s1 with keypairs := (Function.update s1.keypairs keypair
                      { kp with sending := { kp.sending with counter := r.2.1 } }) }
        if !r.2.2 then out_invalid K now keypair r.1 s2
        else
          match peer_rcu_get s2 with
          | none => { s2 with fault := true }
          | some s3 => packet_create_data E r.1 keypair s3

/-- The function `packet_send_keepalive` (send.c 150-165); `alloc` is whether
`alloc_skb` succeeds. -/
def packet_send_keepalive (K : Consts) (E : Env) (now : Nat) (alloc : Bool) (s : State) : State :=
  if s.staged_packet_queue.isEmpty then
    if !alloc then s
    else
      let skb : Skb := { data := 0, len := 0, sk := none, nonce := 0, ds := 0, header := none }
      packet_send_staged_packets K E now
        { s with staged_packet_queue := s.staged_packet_queue ++ [skb] }
  else packet_send_staged_packets K E now s

/-! ## peer.c: removal -/

/-- Modelled from the spec: `noise_handshake_clear` of `noise.c` is not among the
sources; removal "clears handshake and all keypairs (zeroising key material)". -/
def noise_handshake_clear (s : State) : State := { s with handshake := none }

/-- Modelled from the spec: `noise_keypairs_clear` of `noise.c` is not among the
sources; it unpublishes the keypairs of the peer and releases the reference the
peer held on each. Only the current keypair is modelled. -/
def noise_keypairs_clear (s : State) : State :=
  noise_keypair_put s.current_keypair { s with current_keypair := none }

/-- The call `flush_workqueue(peer->device->packet_crypt_wq)`: the pending encrypt
work runs to completion, and so does the serial completion work of the peer. -/
def flush_packet_crypt_wq (K : Consts) (E : Env) (now : Nat) (s : State) : State :=
  packet_tx_worker K E now (packet_encrypt_worker K E s)

/-- The kernel's `list_del(&peer->peer_list)`: it unlinks the entry from the device list
and poisons its pointers. On an entry that is already unlinked it dereferences the
poison pointers and faults: `none`. -/
def list_del (s : State) : Option State :=
  if s.peer_list_linked then
    some { s with peer_list := s.peer_list.erase s.internal_id, peer_list_linked := false }
  else none

/-- The function `peer_remove` (peer.c 76-92); the handle `none` is `NULL`. A fault in
`list_del` ends the call there. -/
def peer_remove (K : Consts) (E : Env) (now : Nat) (peer : Option Unit) (s : State) : State :=
  match peer with
  | none => s
  | some _ =>
    let s1 := noise_handshake_clear s
    let s2 := noise_keypairs_clear s1
    match list_del s2 with
    | none => { s2 with fault := true }
    | some s3 =>
      let s4 := { s3 with events := s3.events ++ [Event.timers_stop] }
      let s5 := { s4 with
        peer_routing_table := s4.peer_routing_table.filter (fun e => e.2 ≠ s4.internal_id) }
      let s6 := { s5 with peer_hashtable := s5.peer_hashtable.erase s5.internal_id }
      let s7 := { s6 with staged_packet_queue := [] }
      let s8 := flush_packet_crypt_wq K E now s7
      let s9 := flush_packet_crypt_wq K E now s8
      let s10 := run_handshake_send_wq K E now s9
      peer_put s10

/-! ## The peer as a transition system -/

/-- What can happen to the peer: the entry points of send.c, called by the interface
layer, the timers and the workqueues. -/
inductive Action where
  /-- The interface layer queues a datagram: `skb_queue_tail(&peer->staged_packet_queue, skb)`. -/
  | stage (skb : Skb)
  /-- A call of `packet_send_staged_packets`. -/
  | send_staged_packets
  /-- A call of `packet_send_keepalive`. -/
  | send_keepalive (alloc : Bool)
  /-- A run of `packet_encrypt_worker` over the whole device queue, in queue order. -/
  | encrypt_worker
  /-- One of the parallel encrypt workers completes the batch it took from position
  `i` of the device queue, independently of the batches before it. -/
  | encrypt_finish (i : Nat)
  /-- A run of `packet_tx_worker`. -/
  | tx_worker
  /-- A call of `packet_send_queued_handshake_initiation`. -/
  | send_queued_handshake_initiation (is_retry : Bool)
  /-- The handshake workqueue runs the pending `packet_handshake_send_worker`. -/
  | handshake_send_worker
  deriving DecidableEq, Repr

/-- One action at jiffies value `now`. -/
def step (K : Consts) (E : Env) (now : Nat) (a : Action) (s : State) : State :=
  match a with
  | .stage skb => { s with staged_packet_queue := s.staged_packet_queue ++ [skb] }
  | .send_staged_packets => packet_send_staged_packets K E now s
  | .send_keepalive alloc => packet_send_keepalive K E now alloc s
  | .encrypt_worker => packet_encrypt_worker K E s
  | .encrypt_finish i =>
    match s.encrypt_queue.get? i with
    | none => s
    | some ctx => encrypt_ctx K E ctx { s with encrypt_queue := s.encrypt_queue.eraseIdx i }
  | .tx_worker => packet_tx_worker K E now s
  | .send_queued_handshake_initiation is_retry =>
    packet_send_queued_handshake_initiation K now is_retry s
  | .handshake_send_worker => run_handshake_send_wq K E now s

/-- A schedule: actions with the jiffies value at which each happens. -/
def run (K : Consts) (E : Env) : List (Nat × Action) → State → State
  | [], s => s
  | (now, a) :: rest, s => run K E rest (step K E now a s)

/-- The batches surfaced so far, in the order `packet_tx_worker` dequeued them. -/
def surfaced (s : State) : List Nat :=
  s.events.filterMap (fun e => match e with
    | Event.queue_dequeue ctx => some ctx
    | _ => none)

/-- The batches submitted so far, in the order `packet_create_data` enqueued them. -/
def submitted (s : State) : List Nat :=
  s.events.filterMap (fun e => match e with
    | Event.queue_enqueue ctx => some ctx
    | _ => none)

/-- The jiffies values at which handshake initiations were emitted, oldest first. -/
def initiation_times (s : State) : List Nat :=
  s.events.filterMap (fun e => match e with
    | Event.socket_send_handshake_initiation t => some t
    | _ => none)

/-! ## Auxiliary definitions for the statements -/

/-- The batch as the nonce walk leaves it when it runs to the end -/
def label (E : Env) : Nat → List Skb → List Skb
  | _, [] => []
  | c, skb :: rest => { skb with ds := E.ip_tunnel_ecn_encap skb, nonce := c } :: label E (c + 1) rest

/-- The state a successful drain of `batch` under keypair `k` with counter `c` leaves. -/
def drained (E : Env) (k c : Nat) (batch : List Skb) (s : State) : State :=
  { s with
    staged_packet_queue := []
    keypairs := (Function.update s.keypairs k
      { s.keypairs k with
        refcount := (s.keypairs k).refcount + 1
        sending := { (s.keypairs k).sending with counter := c + batch.length } })
    refcount := s.refcount + 1
    next_ctx := s.next_ctx + 1
    ctxs := (Function.update s.ctxs s.next_ctx
      { keypair := k, packets := label E c batch, is_finished := false })
    encrypt_queue := s.encrypt_queue ++ [s.next_ctx]
    tx_queue := s.tx_queue ++ [s.next_ctx]
    events := s.events ++ [Event.queue_enqueue s.next_ctx] }

/-- The schedule that stages each batch and drains it, batch after batch. -/
def drain_schedule : List (Nat × List Skb) → List (Nat × Action)
  | [] => []
  | b :: rest =>
    b.2.map (fun skb => (b.1, Action.stage skb)) ++
      (b.1, Action.send_staged_packets) :: drain_schedule rest

/-- The batches as successive successful drains label them, from counter `c`. -/
def labels (E : Env) : Nat → List (Nat × List Skb) → List (List Skb)
  | _, [] => []
  | c, b :: rest => label E c b.2 :: labels E (c + b.2.length) rest

/-- The number of datagrams in a list of batches. -/
def total (batches : List (Nat × List Skb)) : Nat := (batches.map (fun b => b.2.length)).sum

/-! ## Concrete inputs -/

/-- Small constants, with `REKEY_AFTER_MESSAGES < REJECT_AFTER_MESSAGES`. -/
def K0 : Consts :=
  { REKEY_AFTER_MESSAGES := 5, REJECT_AFTER_MESSAGES := 8, REKEY_AFTER_TIME := 120,
    REJECT_AFTER_TIME := 180, REKEY_TIMEOUT := 5, sizeof_message_data := 16,
    NOISE_AUTHTAG_LEN := 16 }

/-- An environment in which every allocation, encryption and transmission succeeds. -/
def E0 : Env :=
  { kmem_cache_alloc := fun _ => true
    queue_enqueue_ok := fun _ => true
    ip_tunnel_ecn_encap := fun _ => 0
    skb_padding := fun skb => (16 - skb.len % 16) % 16
    skb_cow_data := fun _ _ => 1
    sg_size := 35
    skb_cow_head := fun _ => 0
    skb_to_sgvec := fun _ => 1
    chacha20poly1305_encrypt_sg := fun _ => true
    socket_send_skb_to_peer := fun _ => 0
    noise_handshake_create_initiation := fun _ => true }

/-- A valid responder keypair born at jiffies 100 with counter `c`. -/
def kp0 (c : Nat) : Keypair :=
  { sending := { counter := c, birthdate := 100, is_valid := true }
    i_am_the_initiator := false, remote_index := 7, refcount := 1, freed := false }

/-- A plaintext datagram of length `l` owned by socket 1. -/
def mkSkb (d l : Nat) : Skb :=
  { data := d, len := l, sk := some 1, nonce := 0, ds := 0, header := none }

/-- A peer on the device list with reference count `r`, current keypair `cur` (stored at
address 0 with counter `c`), staged queue `staged`, idle queues and an empty log. -/
def mkState (r : Nat) (cur : Option Nat) (c : Nat) (staged : List Skb) : State :=
  { internal_id := 1, refcount := r, released := false, handshake := some 0,
    last_sent_handshake := 100, timer_handshake_attempts := 3, current_keypair := cur,
    staged_packet_queue := staged, tx_queue := [], transmit_handshake_work := false,
    encrypt_queue := [], peer_list := [1], peer_list_linked := true, peer_hashtable := [1],
    peer_routing_table := [(10, 1)], keypairs := fun _ => kp0 c,
    ctxs := fun _ => { keypair := 0, packets := [], is_finished := false },
    next_ctx := 0, events := [], fault := false }

/-- The part of the state the handshake gate reads and the initiations emitted so far. -/
def hs_view (s : State) : Nat × List Nat := (s.last_sent_handshake, initiation_times s)

/-- The invariant behind the rate limit: emissions so far are more than `REKEY_TIMEOUT`
apart, and none is later than `last_sent_handshake`, which is not later than `t`. -/
def hs_inv (K : Consts) (t : Nat) (s : State) : Prop :=
  (initiation_times s).Pairwise (fun t1 t2 => t1 + K.REKEY_TIMEOUT < t2) ∧
  ∀ a ∈ initiation_times s, a ≤ s.last_sent_handshake ∧ s.last_sent_handshake ≤ t

/-- The peer tx queue with the batches surfaced and submitted so far. -/
def q_view (s : State) : List Nat × List Nat × List Nat := (s.tx_queue, surfaced s, submitted s)

/-- The serial-queue invariant: the batches surfaced so far followed by the batches
still on the peer tx queue are the batches submitted so far, in submission order. -/
def order_inv (s : State) : Prop := surfaced s ++ s.tx_queue = submitted s

/-- Three batches are submitted, the encrypt workers finish the third, then the first,
then the second, and the tx worker runs after each. -/
def fifo_schedule : List (Nat × Action) :=
  [(110, Action.stage (mkSkb 1 100)), (110, Action.send_staged_packets),
   (111, Action.stage (mkSkb 2 200)), (111, Action.send_staged_packets),
   (112, Action.stage (mkSkb 3 300)), (112, Action.send_staged_packets),
   (113, Action.encrypt_finish 2), (114, Action.tx_worker),
   (115, Action.encrypt_finish 0), (116, Action.tx_worker),
   (117, Action.encrypt_finish 0), (118, Action.tx_worker)]

/-- The state in which `keep_key_fresh` runs at the serial completion of a batch of one
datagram, drained under keypair `k` with counter `c` from an idle peer `s` and
encrypted to `enc`. -/
def at_completion (K : Consts) (E : Env) (k c : Nat) (enc : Skb) (s : State) : State :=
  { s with
    staged_packet_queue := []
    keypairs := (Function.update s.keypairs k
      { s.keypairs k with
        refcount := (s.keypairs k).refcount + 1
        sending := { (s.keypairs k).sending with counter := c + 1 } })
    refcount := s.refcount + 1
    next_ctx := s.next_ctx + 1
    ctxs := (Function.update s.ctxs s.next_ctx
      { keypair := k, packets := [enc], is_finished := true })
    encrypt_queue := []
    tx_queue := []
    events := s.events ++
      ([Event.queue_enqueue s.next_ctx, Event.queue_dequeue s.next_ctx,
        Event.timers_any_authenticated_packet_traversal,
        Event.socket_send_skb_to_peer enc (E.socket_send_skb_to_peer enc)] ++
       (if E.socket_send_skb_to_peer enc = 0 ∧ enc.len ≠ message_data_len K 0
        then [Event.timers_data_sent] else [])) }

/-- The sending keys, the device encrypt queue and the batch heap. -/
def k_view (s : State) : (Nat → SymmetricKey) × List Nat × (Nat → CryptCtx) :=
  (fun j => (s.keypairs j).sending, s.encrypt_queue, s.ctxs)

/-- Between `s` and `s1` the sending key of keypair `k` is untouched and every batch on
the device encrypt queue under `k` was already there. -/
def kept (k : Nat) (s s1 : State) : Prop :=
  (s1.keypairs k).sending = (s.keypairs k).sending ∧
  ∀ ctx ∈ s1.encrypt_queue, (s1.ctxs ctx).keypair = k →
    ctx ∈ s.encrypt_queue ∧ (s.ctxs ctx).keypair = k

/-- A batch is submitted under keypair 0, then a second drain exhausts the counter and
marks keypair 0 invalid while the first batch is still on the encrypt queue. -/
def invalidate_schedule : List (Nat × Action) :=
  [(110, Action.stage (mkSkb 1 100)), (110, Action.send_staged_packets),
   (111, Action.stage (mkSkb 2 200)), (111, Action.stage (mkSkb 3 300)),
   (111, Action.send_staged_packets)]

/-- Whether a datagram of the batch that is not a keepalive is handed to the socket
successfully (`socket_send_skb_to_peer` returns 0). -/
def data_was_sent (K : Consts) (E : Env) (queue : List Skb) : Bool :=
  queue.any (fun skb =>
    decide (E.socket_send_skb_to_peer skb = 0) && !decide (skb.len = message_data_len K 0))

/-- An environment in which the allocation of a batch fails. -/
def E_noalloc : Env := { E0 with kmem_cache_alloc := fun _ => false }

/-- The fields `peer_remove` clears or unlinks, with the peer's id. -/
def r_view (s : State) : Nat × Option Nat × Option Nat × Bool × List Nat × List Nat :=
  (s.internal_id, s.handshake, s.current_keypair, s.peer_list_linked, s.peer_list,
   s.peer_hashtable)

/-! # Theorems -/

/-! ## The encrypt worker empties the device queue -/

theorem peer_put_encrypt_queue (s : State) : (peer_put s).encrypt_queue = s.encrypt_queue := by
  by_cases h : s.refcount = 0 <;> by_cases h2 : s.refcount - 1 = 0 <;>
    simp [peer_put, kref_release, h, h2]

theorem encrypt_ctx_queue (K : Consts) (E : Env) (ctx : Nat) (s : State) :
    (encrypt_ctx K E ctx s).encrypt_queue = s.encrypt_queue := by
  unfold encrypt_ctx peer_rcu_get peer_get
  simp only []
  split_ifs
  · rfl
  · simp only []; rw [peer_put_encrypt_queue]

theorem encrypt_worker_loop_drains (K : Consts) (E : Env) (fuel : Nat) :
    ∀ s, s.encrypt_queue.length ≤ fuel →
      (packet_encrypt_worker_loop K E fuel s).encrypt_queue = [] := by
  induction fuel with
  | zero =>
    intro s h
    exact List.length_eq_zero.mp (Nat.le_zero.mp h)
  | succ n ih =>
    intro s h
    unfold packet_encrypt_worker_loop queue_dequeue_per_device
    cases hq : s.encrypt_queue with
    | nil => simp only []; exact hq
    | cons ctx rest =>
      simp only []
      apply ih
      rw [encrypt_ctx_queue]
      rw [hq] at h
      simpa using h

/-- The loop of `packet_encrypt_worker` ends because the device queue is empty: the fuel
it is given, the length of the queue, is enough. -/
theorem encrypt_worker_drains (K : Consts) (E : Env) (s : State) :
    (packet_encrypt_worker K E s).encrypt_queue = [] :=
  encrypt_worker_loop_drains K E s.encrypt_queue.length s (le_refl _)

/-! ## The nonce walk and successful drains (C1) -/

theorem sub64_add64_one (c : Nat) (h : c < U64) : sub64 (add64 c 1) 1 = c := by
  unfold sub64 add64 U64 at *
  omega

theorem assign_nonces_ok (K : Consts) (E : Env) (l : List Skb) :
    ∀ c, c + l.length ≤ K.REJECT_AFTER_MESSAGES → K.REJECT_AFTER_MESSAGES < U64 →
      assign_nonces K E c l = (label E c l, c + l.length, true) := by
  induction l with
  | nil => intro c _ _; simp [assign_nonces, label]
  | cons skb rest ih =>
    intro c h hR
    simp only [List.length_cons] at h
    have hc : c < U64 := by omega
    have hc1 : add64 c 1 = c + 1 := by unfold add64; apply Nat.mod_eq_of_lt; omega
    have hn : sub64 (add64 c 1) 1 = c := sub64_add64_one c hc
    have hlt : ¬ (c ≥ K.REJECT_AFTER_MESSAGES) := by omega
    simp only [assign_nonces, hn, hlt, if_false]
    rw [hc1, ih (c + 1) (by omega) hR]
    simp [label]
    omega

theorem label_nonce (E : Env) (l : List Skb) : ∀ c, (label E c l).map Skb.nonce = List.range' c l.length := by
  induction l with
  | nil => intro c; simp [label]
  | cons skb rest ih => intro c; simp [label, ih, List.range'_succ]

theorem label_data (E : Env) (l : List Skb) : ∀ c, (label E c l).map Skb.data = l.map Skb.data := by
  induction l with
  | nil => intro c; simp [label]
  | cons skb rest ih => intro c; simp [label, ih]

theorem label_length (E : Env) (l : List Skb) : ∀ c, (label E c l).length = l.length := by
  induction l with
  | nil => intro c; simp [label]
  | cons skb rest ih => intro c; simp [label, ih]

theorem drain_ok (K : Consts) (E : Env) (now : Nat) (s : State) (k c : Nat)
    (hR : K.REJECT_AFTER_MESSAGES < U64)
    (hcur : s.current_keypair = some k)
    (hvalid : (s.keypairs k).sending.is_valid = true)
    (hcnt : (s.keypairs k).sending.counter = c)
    (hkref : 0 < (s.keypairs k).refcount)
    (hpref : 0 < s.refcount)
    (hne : s.staged_packet_queue ≠ [])
    (hfresh : time_is_before_eq_jiffies64 now
      (add64 (s.keypairs k).sending.birthdate K.REJECT_AFTER_TIME) = false)
    (halloc : E.kmem_cache_alloc s.next_ctx = true)
    (henq : E.queue_enqueue_ok s.next_ctx = true)
    (hsum : c + s.staged_packet_queue.length ≤ K.REJECT_AFTER_MESSAGES) :
    packet_send_staged_packets K E now s = drained E k c s.staged_packet_queue s := by
  have hk0 : (s.keypairs k).refcount ≠ 0 := by omega
  have hp0 : s.refcount ≠ 0 := by omega
  have hA := assign_nonces_ok K E s.staged_packet_queue c hsum hR
  simp [packet_send_staged_packets, hne, hcur, noise_keypair_get, hk0, hvalid, hfresh, hcnt, hA,
    peer_rcu_get, peer_get, hp0, packet_create_data, queue_enqueue_per_device_and_peer, halloc,
    henq, drained]

theorem run_append (K : Consts) (E : Env) (a b : List (Nat × Action)) :
    ∀ s, run K E (a ++ b) s = run K E b (run K E a s) := by
  induction a with
  | nil => intro s; rfl
  | cons x rest ih => intro s; obtain ⟨t, act⟩ := x; simp [run, ih]

theorem run_stage (K : Consts) (E : Env) (now : Nat) (batch : List Skb) :
    ∀ s, run K E (batch.map (fun skb => (now, Action.stage skb))) s =
      { s with staged_packet_queue := s.staged_packet_queue ++ batch } := by
  induction batch with
  | nil => intro s; simp [run]
  | cons x rest ih => intro s; simp [run, step, ih]

theorem drains_ok (K : Consts) (E : Env) (k : Nat) (hR : K.REJECT_AFTER_MESSAGES < U64)
    (batches : List (Nat × List Skb)) :
    ∀ (s : State) (c : Nat),
      s.current_keypair = some k →
      (s.keypairs k).sending.is_valid = true →
      (s.keypairs k).sending.counter = c →
      0 < (s.keypairs k).refcount →
      0 < s.refcount →
      s.staged_packet_queue = [] →
      (∀ b ∈ batches, b.2 ≠ []) →
      (∀ b ∈ batches, time_is_before_eq_jiffies64 b.1
        (add64 (s.keypairs k).sending.birthdate K.REJECT_AFTER_TIME) = false) →
      (∀ j, j < batches.length → E.kmem_cache_alloc (s.next_ctx + j) = true) →
      (∀ j, j < batches.length → E.queue_enqueue_ok (s.next_ctx + j) = true) →
      c + total batches ≤ K.REJECT_AFTER_MESSAGES →
      ((run K E (drain_schedule batches) s).keypairs k).sending.counter = c + total batches ∧
      (run K E (drain_schedule batches) s).tx_queue =
        s.tx_queue ++ List.range' s.next_ctx batches.length ∧
      (List.range' s.next_ctx batches.length).map
        (fun i => ((run K E (drain_schedule batches) s).ctxs i).packets) = labels E c batches ∧
      (∀ i, i < s.next_ctx → (run K E (drain_schedule batches) s).ctxs i = s.ctxs i) := by
  induction batches with
  | nil => intro s c _ _ hc _ _ _ _ _ _ _ _; simp [drain_schedule, run, total, labels, hc]
  | cons b rest ih =>
    intro s c hcur hvalid hcnt hkref hpref hst hne hfresh halloc henq hsum
    have hb : b.2 ≠ [] := hne b (List.mem_cons_self _ _)
    have htot : total (b :: rest) = b.2.length + total rest := by simp [total]
    rw [htot] at hsum
    simp only [drain_schedule, run_append, run_stage, run, step, hst, List.nil_append]
    have hd := drain_ok K E b.1 { s with staged_packet_queue := b.2 } k c hR hcur hvalid hcnt
      hkref hpref hb (hfresh b (List.mem_cons_self _ _)) (by simpa using halloc 0 (by simp))
      (by simpa using henq 0 (by simp)) (by simp; omega)
    rw [hd]
    have ih2 := ih (drained E k c b.2 { s with staged_packet_queue := b.2 }) (c + b.2.length)
      (by simp [drained, hcur]) (by simp [drained, hvalid]) (by simp [drained])
      (by simp [drained]) (by simp [drained]) (by simp [drained])
      (fun x hx => hne x (List.mem_cons_of_mem _ hx))
      (by
        intro x hx
        have := hfresh x (List.mem_cons_of_mem _ hx)
        simpa [drained] using this)
      (by
        intro j hj
        have := halloc (j + 1) (by simp; omega)
        simpa [drained, Nat.add_assoc, Nat.add_comm 1 j] using this)
      (by
        intro j hj
        have := henq (j + 1) (by simp; omega)
        simpa [drained, Nat.add_assoc, Nat.add_comm 1 j] using this)
      (by omega)
    obtain ⟨h1, h2, h3, h4⟩ := ih2
    refine ⟨?_, ?_, ?_, ?_⟩
    · rw [h1, htot]; omega
    · rw [h2]; simp [drained, List.range'_succ]
    · simp only [List.length_cons, List.range'_succ, List.map_cons, labels]
      have hx := h4 s.next_ctx (by simp [drained])
      rw [hx]
      have h3' := h3
      simp only [drained] at h3'
      simp only [drained, Function.update_same]
      rw [h3']
    · intro i hi
      rw [h4 i (by simp [drained]; omega)]
      simp [drained, Function.update_noteq (Nat.ne_of_lt hi)]

theorem labels_get (E : Env) (batches : List (Nat × List Skb)) :
    ∀ (c j : Nat) (b : Nat × List Skb), batches[j]? = some b →
      (labels E c batches)[j]? = some (label E (c + total (batches.take j)) b.2) := by
  induction batches with
  | nil => intro c j b h; simp at h
  | cons x rest ih =>
    intro c j b h
    cases j with
    | zero =>
      simp at h
      simp [labels, total, h]
    | succ j =>
      simp at h
      have := ih (c + x.2.length) j b (by simpa using h)
      simp only [labels, List.getElem?_cons_succ, this, List.take_succ_cons]
      simp [total, Nat.add_assoc]

theorem labels_nonces (E : Env) (batches : List (Nat × List Skb)) :
    ∀ c, ((labels E c batches).map (fun p => p.map Skb.nonce)).flatten =
      List.range' c (total batches) := by
  induction batches with
  | nil => intro c; simp [labels, total]
  | cons x rest ih =>
    intro c
    simp only [labels, List.map_cons, List.flatten_cons, ih, label_nonce]
    have : total (x :: rest) = x.2.length + total rest := by simp [total]
    rw [this, List.range'_append_1, Nat.add_comm]

/-- Claim C1. Under a valid keypair `k` that is not older than `REJECT_AFTER_TIME`, with
send counter `c`, successive successful drains of non-empty batches whose total number
of datagrams keeps `c + total ≤ REJECT_AFTER_MESSAGES` leave the counter at `c + total`;
the batch of the `j`-th drain is submitted with its datagrams in queue order, the `i`-th
one carrying the nonce `c + (datagrams of the earlier drains) + i`. Hence the nonces
assigned over the drains are `c, c + 1, ...`: contiguous (from zero when `c = 0`),
strictly increasing and pairwise distinct. One drain is the case of one batch. -/
theorem nonces_contiguous (K : Consts) (E : Env) (k c : Nat) (s : State)
    (batches : List (Nat × List Skb))
    (hR : K.REJECT_AFTER_MESSAGES < U64)
    (hcur : s.current_keypair = some k)
    (hvalid : (s.keypairs k).sending.is_valid = true)
    (hcnt : (s.keypairs k).sending.counter = c)
    (hkref : 0 < (s.keypairs k).refcount)
    (hpref : 0 < s.refcount)
    (hst : s.staged_packet_queue = [])
    (hne : ∀ b ∈ batches, b.2 ≠ [])
    (hfresh : ∀ b ∈ batches, time_is_before_eq_jiffies64 b.1
      (add64 (s.keypairs k).sending.birthdate K.REJECT_AFTER_TIME) = false)
    (halloc : ∀ j, j < batches.length → E.kmem_cache_alloc (s.next_ctx + j) = true)
    (henq : ∀ j, j < batches.length → E.queue_enqueue_ok (s.next_ctx + j) = true)
    (hsum : c + total batches ≤ K.REJECT_AFTER_MESSAGES) :
    ((run K E (drain_schedule batches) s).keypairs k).sending.counter = c + total batches ∧
    (∀ (j : Nat) (b : Nat × List Skb), batches[j]? = some b →
      ((run K E (drain_schedule batches) s).ctxs (s.next_ctx + j)).packets.map Skb.nonce =
          List.range' (c + total (batches.take j)) b.2.length ∧
      ((run K E (drain_schedule batches) s).ctxs (s.next_ctx + j)).packets.map Skb.data =
          b.2.map Skb.data) ∧
    ((List.range' s.next_ctx batches.length).map
        (fun i => ((run K E (drain_schedule batches) s).ctxs i).packets.map Skb.nonce)).flatten =
      List.range' c (total batches) ∧
    (c = 0 →
      ((List.range' s.next_ctx batches.length).map
        (fun i => ((run K E (drain_schedule batches) s).ctxs i).packets.map Skb.nonce)).flatten =
      List.range (total batches)) ∧
    List.Pairwise (fun a b => a < b)
      ((List.range' s.next_ctx batches.length).map
        (fun i => ((run K E (drain_schedule batches) s).ctxs i).packets.map Skb.nonce)).flatten ∧
    List.Nodup
      ((List.range' s.next_ctx batches.length).map
        (fun i => ((run K E (drain_schedule batches) s).ctxs i).packets.map Skb.nonce)).flatten := by
  obtain ⟨h1, _, h3, _⟩ := drains_ok K E k hR batches s c hcur hvalid hcnt hkref hpref hst hne
    hfresh halloc henq hsum
  have hjoin : ((List.range' s.next_ctx batches.length).map
        (fun i => ((run K E (drain_schedule batches) s).ctxs i).packets.map Skb.nonce)).flatten =
      List.range' c (total batches) := by
    rw [← labels_nonces E batches c, ← h3, List.map_map]
    rfl
  refine ⟨h1, ?_, hjoin, ?_, ?_, ?_⟩
  · intro j b hj
    have hl := labels_get E batches c j b hj
    rw [← h3] at hl
    have hjlt : j < batches.length := by
      rcases Nat.lt_or_ge j batches.length with h | h
      · exact h
      · rw [List.getElem?_eq_none h] at hj; cases hj
    rw [List.getElem?_map, List.getElem?_range' _ _ hjlt] at hl
    simp only [Option.map_some', Option.some.injEq, Nat.one_mul] at hl
    rw [hl, label_nonce, label_data]
    exact ⟨rfl, rfl⟩
  · intro h0
    rw [hjoin, h0, List.range_eq_range']
  · rw [hjoin]; exact List.pairwise_lt_range' c (total batches)
  · rw [hjoin]; exact List.nodup_range' c (total batches)

/-- Witness of C1: two drains, of two datagrams and of one, from counter 0. -/
theorem nonces_contiguous_witness :
    ((run K0 E0 (drain_schedule [(110, [mkSkb 1 100, mkSkb 2 200]), (111, [mkSkb 3 300])])
        (mkState 1 (some 0) 0 [])).keypairs 0).sending.counter = 3 ∧
    ((List.range' 0 2).map
        (fun i => ((run K0 E0
          (drain_schedule [(110, [mkSkb 1 100, mkSkb 2 200]), (111, [mkSkb 3 300])])
          (mkState 1 (some 0) 0 [])).ctxs i).packets.map Skb.nonce)).flatten = [0, 1, 2] :=
  have h := nonces_contiguous K0 E0 0 0 (mkState 1 (some 0) 0 [])
    [(110, [mkSkb 1 100, mkSkb 2 200]), (111, [mkSkb 3 300])]
    (by decide) rfl rfl rfl (by decide) (by decide) rfl (by decide) (by decide) (by decide)
    (by decide) (by decide)
  ⟨h.1, h.2.2.1⟩

/-! ## Counter exhaustion (C2) -/

theorem assign_nonces_fail (K : Consts) (E : Env) (l : List Skb) :
    ∀ c, c < U64 → K.REJECT_AFTER_MESSAGES < U64 → l ≠ [] →
      c + l.length > K.REJECT_AFTER_MESSAGES →
      (assign_nonces K E c l).2.2 = false ∧
      (assign_nonces K E c l).1.map Skb.data = l.map Skb.data ∧
      (assign_nonces K E c l).1.map Skb.len = l.map Skb.len ∧
      (assign_nonces K E c l).1.map Skb.sk = l.map Skb.sk := by
  induction l with
  | nil => intro c _ _ h; exact absurd rfl h
  | cons skb rest ih =>
    intro c hc hR _ hsum
    have hn : sub64 (add64 c 1) 1 = c := sub64_add64_one c hc
    by_cases hge : c ≥ K.REJECT_AFTER_MESSAGES
    · simp [assign_nonces, hn, hge]
    · have hc1 : add64 c 1 = c + 1 := by unfold add64; apply Nat.mod_eq_of_lt; omega
      simp only [List.length_cons] at hsum
      have hrest : rest ≠ [] := by
        intro h0; rw [h0] at hsum; simp at hsum; omega
      obtain ⟨h1, h2, h3, h4⟩ := ih (c + 1) (by omega) hR hrest (by omega)
      simp only [assign_nonces, hn, hge, if_false]
      rw [hc1]
      simp only [h1, List.map_cons, h2, h3, h4]
      exact ⟨trivial, trivial, trivial, trivial⟩

theorem queued_initiation_eq (K : Consts) (now : Nat) (is_retry : Bool) (s : State) :
    packet_send_queued_handshake_initiation K now is_retry s =
      if time_is_before_jiffies64 now (add64 s.last_sent_handshake K.REKEY_TIMEOUT) = false then
        { s with timer_handshake_attempts := if is_retry then s.timer_handshake_attempts else 0 }
      else if s.refcount = 0 then
        { s with
          timer_handshake_attempts := if is_retry then s.timer_handshake_attempts else 0
          fault := true }
      else if s.transmit_handshake_work = false then
        { s with
          timer_handshake_attempts := if is_retry then s.timer_handshake_attempts else 0
          refcount := s.refcount + 1
          transmit_handshake_work := true }
      else
        { s with timer_handshake_attempts := if is_retry then s.timer_handshake_attempts else 0 } := by
  unfold packet_send_queued_handshake_initiation peer_rcu_get peer_get peer_put kref_release
  cases s
  cases is_retry <;> simp only [] <;> split_ifs <;> simp_all

theorem queued_initiation_frame (K : Consts) (now : Nat) (is_retry : Bool) (s : State) :
    (packet_send_queued_handshake_initiation K now is_retry s).staged_packet_queue =
      s.staged_packet_queue ∧
    (packet_send_queued_handshake_initiation K now is_retry s).keypairs = s.keypairs ∧
    (packet_send_queued_handshake_initiation K now is_retry s).current_keypair =
      s.current_keypair ∧
    (packet_send_queued_handshake_initiation K now is_retry s).encrypt_queue = s.encrypt_queue ∧
    (packet_send_queued_handshake_initiation K now is_retry s).tx_queue = s.tx_queue ∧
    (packet_send_queued_handshake_initiation K now is_retry s).ctxs = s.ctxs ∧
    (packet_send_queued_handshake_initiation K now is_retry s).next_ctx = s.next_ctx ∧
    (packet_send_queued_handshake_initiation K now is_retry s).events = s.events ∧
    (packet_send_queued_handshake_initiation K now is_retry s).last_sent_handshake =
      s.last_sent_handshake := by
  rw [queued_initiation_eq]
  split_ifs <;> simp
theorem drain_exhausted_eq (K : Consts) (E : Env) (now : Nat) (s : State) (k c : Nat)
    (hR : K.REJECT_AFTER_MESSAGES < U64)
    (hcur : s.current_keypair = some k)
    (hvalid : (s.keypairs k).sending.is_valid = true)
    (hcnt : (s.keypairs k).sending.counter = c)
    (hc : c < U64)
    (hkref : 0 < (s.keypairs k).refcount)
    (hne : s.staged_packet_queue ≠ [])
    (hfresh : time_is_before_eq_jiffies64 now
      (add64 (s.keypairs k).sending.birthdate K.REJECT_AFTER_TIME) = false)
    (hsum : c + s.staged_packet_queue.length > K.REJECT_AFTER_MESSAGES) :
    packet_send_staged_packets K E now s =
      packet_send_queued_handshake_initiation K now false
        { s with
          staged_packet_queue :=
            (assign_nonces K E c s.staged_packet_queue).1.map (fun skb => { skb with sk := none })
          keypairs := (Function.update s.keypairs k
            { s.keypairs k with
              sending :=
                { (s.keypairs k).sending with
                  counter := (assign_nonces K E c s.staged_packet_queue).2.1
                  is_valid := false } }) } := by
  have hk0 : (s.keypairs k).refcount ≠ 0 := by omega
  obtain ⟨hF, -, -, -⟩ := assign_nonces_fail K E s.staged_packet_queue c hc hR hne hsum
  simp [packet_send_staged_packets, hne, hcur, noise_keypair_get, hk0, hvalid, hfresh, hcnt, hF,
    out_invalid, out_nokey, noise_keypair_put]
/-- Claim C2. Under a valid, unexpired keypair `k` with counter `c`, a drain of `n ≥ 1`
staged datagrams with `c + n > REJECT_AFTER_MESSAGES` marks the key invalid, submits
nothing (the encrypt queue, the peer tx queue, the batch allocator and the log of
transmissions are untouched), holds no keypair reference afterwards, leaves the staged
queue holding the `n` datagrams in their original order, and is otherwise exactly one call
`packet_send_queued_handshake_initiation(peer, false)`. -/
theorem drain_counter_exhausted (K : Consts) (E : Env) (now : Nat) (s : State) (k c : Nat)
    (hR : K.REJECT_AFTER_MESSAGES < U64)
    (hcur : s.current_keypair = some k)
    (hvalid : (s.keypairs k).sending.is_valid = true)
    (hcnt : (s.keypairs k).sending.counter = c)
    (hc : c < U64)
    (hkref : 0 < (s.keypairs k).refcount)
    (hne : s.staged_packet_queue ≠ [])
    (hfresh : time_is_before_eq_jiffies64 now
      (add64 (s.keypairs k).sending.birthdate K.REJECT_AFTER_TIME) = false)
    (hsum : c + s.staged_packet_queue.length > K.REJECT_AFTER_MESSAGES) :
    ((packet_send_staged_packets K E now s).keypairs k).sending.is_valid = false ∧
    ((packet_send_staged_packets K E now s).keypairs k).refcount = (s.keypairs k).refcount ∧
    (packet_send_staged_packets K E now s).encrypt_queue = s.encrypt_queue ∧
    (packet_send_staged_packets K E now s).tx_queue = s.tx_queue ∧
    (packet_send_staged_packets K E now s).next_ctx = s.next_ctx ∧
    (packet_send_staged_packets K E now s).events = s.events ∧
    (packet_send_staged_packets K E now s).staged_packet_queue.map Skb.data =
      s.staged_packet_queue.map Skb.data ∧
    (packet_send_staged_packets K E now s).staged_packet_queue.map Skb.len =
      s.staged_packet_queue.map Skb.len ∧
    packet_send_staged_packets K E now s =
      packet_send_queued_handshake_initiation K now false
        { s with
          staged_packet_queue := (packet_send_staged_packets K E now s).staged_packet_queue
          keypairs := (packet_send_staged_packets K E now s).keypairs } := by
  have heq := drain_exhausted_eq K E now s k c hR hcur hvalid hcnt hc hkref hne hfresh hsum
  obtain ⟨-, hD, hL, -⟩ := assign_nonces_fail K E s.staged_packet_queue c hc hR hne hsum
  obtain ⟨f1, f2, -, f4, f5, -, f7, f8, -⟩ := queued_initiation_frame K now false
    { s with
      staged_packet_queue :=
        (assign_nonces K E c s.staged_packet_queue).1.map (fun skb => { skb with sk := none })
      keypairs := (Function.update s.keypairs k
        { s.keypairs k with
          sending :=
            { (s.keypairs k).sending with
              counter := (assign_nonces K E c s.staged_packet_queue).2.1
              is_valid := false } }) }
  rw [← heq] at f1 f2 f4 f5 f7 f8
  refine ⟨?_, ?_, f4, f5, f7, f8, ?_, ?_, ?_⟩
  · rw [f2]; simp
  · rw [f2]; simp
  · rw [f1, List.map_map, ← hD, ← List.map_map]
    simp [Function.comp_def]
  · rw [f1, List.map_map, ← hL]
    simp [Function.comp_def]
  · rw [f1, f2]; exact heq

/-- Witness of C2: counter `REJECT_AFTER_MESSAGES - 2` and three staged datagrams. -/
theorem drain_counter_exhausted_witness :
    (((packet_send_staged_packets K0 E0 110
        (mkState 1 (some 0) 6 [mkSkb 1 100, mkSkb 2 200, mkSkb 3 300])).keypairs 0).sending.is_valid
      = false) ∧
    (packet_send_staged_packets K0 E0 110
        (mkState 1 (some 0) 6 [mkSkb 1 100, mkSkb 2 200, mkSkb 3 300])).staged_packet_queue.map
      Skb.data = [1, 2, 3] ∧
    (packet_send_staged_packets K0 E0 110
        (mkState 1 (some 0) 6 [mkSkb 1 100, mkSkb 2 200, mkSkb 3 300])).encrypt_queue = [] :=
  have h := drain_counter_exhausted K0 E0 110
    (mkState 1 (some 0) 6 [mkSkb 1 100, mkSkb 2 200, mkSkb 3 300]) 0 6
    (by decide) rfl rfl rfl (by decide) (by decide) (by decide) (by decide) (by decide)
  ⟨h.1, h.2.2.2.2.2.2.1, h.2.2.1⟩

/-! ## A drain without a keypair (C3) -/

/-- Counterexample to C3. A peer without a current keypair, one staged datagram, and a
handshake sent 3 jiffies ago with `REKEY_TIMEOUT = 5`: the drain queues no handshake
work and takes no reference for one. -/
theorem ratelimited_request_schedules_nothing :
    (mkState 1 none 0 [mkSkb 1 100]).current_keypair = none ∧
    (mkState 1 none 0 [mkSkb 1 100]).staged_packet_queue ≠ [] ∧
    (mkState 1 none 0 [mkSkb 1 100]).transmit_handshake_work = false ∧
    (packet_send_staged_packets K0 E0 103
      (mkState 1 none 0 [mkSkb 1 100])).transmit_handshake_work = false ∧
    (packet_send_staged_packets K0 E0 103 (mkState 1 none 0 [mkSkb 1 100])).refcount = 1 := by
  decide

/-- Claim C3, amended. For a peer without a current keypair and a non-empty staged queue,
the drain leaves the staged queue holding the whole batch in order (orphaned), submits
nothing, and is otherwise exactly one call `packet_send_queued_handshake_initiation(peer,
false)`: afterwards the handshake work is pending exactly if it was pending before or
`last_sent_handshake + REKEY_TIMEOUT` is before the current jiffies; within
`REKEY_TIMEOUT` of the last handshake nothing is scheduled. -/
theorem drain_nokey (K : Consts) (E : Env) (now : Nat) (s : State)
    (hcur : s.current_keypair = none)
    (hne : s.staged_packet_queue ≠ [])
    (hpref : 0 < s.refcount) :
    (packet_send_staged_packets K E now s).staged_packet_queue =
      s.staged_packet_queue.map (fun skb => { skb with sk := none }) ∧
    (packet_send_staged_packets K E now s).encrypt_queue = s.encrypt_queue ∧
    (packet_send_staged_packets K E now s).tx_queue = s.tx_queue ∧
    (packet_send_staged_packets K E now s).next_ctx = s.next_ctx ∧
    (packet_send_staged_packets K E now s).events = s.events ∧
    (packet_send_staged_packets K E now s).keypairs = s.keypairs ∧
    packet_send_staged_packets K E now s =
      packet_send_queued_handshake_initiation K now false
        { s with
          staged_packet_queue := s.staged_packet_queue.map (fun skb => { skb with sk := none }) } ∧
    (packet_send_staged_packets K E now s).transmit_handshake_work =
      (s.transmit_handshake_work ||
        time_is_before_jiffies64 now (add64 s.last_sent_handshake K.REKEY_TIMEOUT)) ∧
    (time_is_before_jiffies64 now (add64 s.last_sent_handshake K.REKEY_TIMEOUT) = false →
      (packet_send_staged_packets K E now s).transmit_handshake_work =
        s.transmit_handshake_work ∧
      (packet_send_staged_packets K E now s).refcount = s.refcount) := by
  have heq : packet_send_staged_packets K E now s =
      packet_send_queued_handshake_initiation K now false
        { s with
          staged_packet_queue := s.staged_packet_queue.map (fun skb => { skb with sk := none }) } := by
    simp [packet_send_staged_packets, hne, hcur, noise_keypair_get, out_nokey, noise_keypair_put]
  obtain ⟨f1, f2, -, f4, f5, -, f7, f8, -⟩ := queued_initiation_frame K now false
    { s with
      staged_packet_queue := s.staged_packet_queue.map (fun skb => { skb with sk := none }) }
  rw [← heq] at f1 f2 f4 f5 f7 f8
  have hp0 : s.refcount ≠ 0 := by omega
  refine ⟨f1, f4, f5, f7, f8, f2, heq, ?_, ?_⟩
  · rw [heq, queued_initiation_eq]
    simp only [hp0, if_false]
    split_ifs with h1 h2 <;> simp_all
  · intro hg
    rw [heq, queued_initiation_eq]
    simp [hg]

/-- Witness of amended C3: two staged datagrams, last handshake 10 jiffies ago. -/
theorem drain_nokey_witness :
    (packet_send_staged_packets K0 E0 110
      (mkState 1 none 0 [mkSkb 1 100, mkSkb 2 200])).staged_packet_queue.map Skb.data = [1, 2] ∧
    (packet_send_staged_packets K0 E0 110
      (mkState 1 none 0 [mkSkb 1 100, mkSkb 2 200])).transmit_handshake_work = true :=
  have h := drain_nokey K0 E0 110 (mkState 1 none 0 [mkSkb 1 100, mkSkb 2 200]) rfl
    (by decide) (by decide)
  ⟨by rw [h.1]; decide, by rw [h.2.2.2.2.2.2.2.1]; decide⟩

/-! ## The handshake initiation rate limit (C4) -/

theorem initiation_times_append (s : State) (l : List Event) :
    initiation_times { s with events := s.events ++ l } =
      initiation_times s ++ initiation_times { s with events := l } := by
  simp [initiation_times]

theorem peer_put_hs (s : State) : hs_view (peer_put s) = hs_view s := by
  by_cases h : s.refcount = 0 <;> by_cases h2 : s.refcount - 1 = 0 <;>
    simp [peer_put, kref_release, hs_view, initiation_times, h, h2]

theorem noise_keypair_put_hs (k : Option Nat) (s : State) :
    hs_view (noise_keypair_put k s) = hs_view s := by
  unfold noise_keypair_put hs_view initiation_times
  cases k with
  | none => simp
  | some k => simp only []; split_ifs <;> simp

theorem queued_initiation_hs (K : Consts) (now : Nat) (r : Bool) (s : State) :
    hs_view (packet_send_queued_handshake_initiation K now r s) = hs_view s := by
  rw [queued_initiation_eq]
  unfold hs_view initiation_times
  split_ifs <;> simp

theorem packet_create_data_hs (E : Env) (p : List Skb) (k : Nat) (s : State) :
    hs_view (packet_create_data E p k s) = hs_view s := by
  unfold packet_create_data queue_enqueue_per_device_and_peer
  simp only []
  split_ifs
  · rw [peer_put_hs, noise_keypair_put_hs]; rfl
  · simp [hs_view, initiation_times]
  · simp only []; rw [peer_put_hs, noise_keypair_put_hs]; simp [hs_view, initiation_times]

theorem out_nokey_hs (K : Consts) (now : Nat) (k : Option Nat) (p : List Skb) (s : State) :
    hs_view (out_nokey K now k p s) = hs_view s := by
  unfold out_nokey
  simp only []
  rw [queued_initiation_hs]
  have := noise_keypair_put_hs k s
  simpa [hs_view, initiation_times] using this

theorem out_invalid_hs (K : Consts) (now : Nat) (k : Nat) (p : List Skb) (s : State) :
    hs_view (out_invalid K now k p s) = hs_view s := by
  unfold out_invalid
  simp only []
  rw [out_nokey_hs]; rfl

theorem noise_keypair_get_hs (k : Option Nat) (s : State) :
    hs_view (noise_keypair_get k s).2 = hs_view s := by
  unfold noise_keypair_get
  cases k with
  | none => rfl
  | some k => simp only []; split_ifs <;> rfl

theorem send_staged_hs (K : Consts) (E : Env) (now : Nat) (s : State) :
    hs_view (packet_send_staged_packets K E now s) = hs_view s := by
  unfold packet_send_staged_packets
  simp only []
  split_ifs
  · rfl
  · have hg := noise_keypair_get_hs s.current_keypair { s with staged_packet_queue := [] }
    generalize noise_keypair_get s.current_keypair { s with staged_packet_queue := [] } = r at hg
    obtain ⟨o, s1⟩ := r
    cases o with
    | none => simp only []; rw [out_nokey_hs]; exact hg
    | some k =>
      simp only []
      split_ifs
      · rw [out_nokey_hs]; exact hg
      · rw [out_invalid_hs]; exact hg
      · rw [out_invalid_hs]; exact hg
      · unfold peer_rcu_get peer_get
        split_ifs
        · exact hg
        · simp only []; rw [packet_create_data_hs]; exact hg

theorem send_keepalive_hs (K : Consts) (E : Env) (now : Nat) (alloc : Bool) (s : State) :
    hs_view (packet_send_keepalive K E now alloc s) = hs_view s := by
  unfold packet_send_keepalive
  split_ifs
  · rfl
  · rw [send_staged_hs]; rfl
  · rw [send_staged_hs]

theorem encrypt_ctx_hs (K : Consts) (E : Env) (ctx : Nat) (s : State) :
    hs_view (encrypt_ctx K E ctx s) = hs_view s := by
  unfold encrypt_ctx peer_rcu_get peer_get
  simp only []
  split_ifs
  · rfl
  · simp only []; rw [peer_put_hs]; rfl

theorem encrypt_worker_loop_hs (K : Consts) (E : Env) (fuel : Nat) :
    ∀ s, hs_view (packet_encrypt_worker_loop K E fuel s) = hs_view s := by
  induction fuel with
  | zero => intro s; rfl
  | succ n ih =>
    intro s
    unfold packet_encrypt_worker_loop queue_dequeue_per_device
    cases h : s.encrypt_queue with
    | nil => rfl
    | cons ctx rest => simp only []; rw [ih, encrypt_ctx_hs]; rfl

theorem keep_key_fresh_hs (K : Consts) (now : Nat) (s : State) :
    hs_view (keep_key_fresh K now s) = hs_view s := by
  unfold keep_key_fresh
  simp only []
  split_ifs
  · rw [queued_initiation_hs]
  · rfl

theorem send_walk_initiations (K : Consts) (E : Env) (q : List Skb) :
    ∀ d, (send_walk K E q d).1.filterMap (fun e => match e with
      | Event.socket_send_handshake_initiation t => some t
      | _ => none) = [] := by
  induction q with
  | nil => intro d; rfl
  | cons skb rest ih => intro d; simp [send_walk, ih]

theorem create_data_done_hs (K : Consts) (E : Env) (now : Nat) (q : List Skb) (s : State) :
    hs_view (packet_create_data_done K E now q s) = hs_view s := by
  unfold packet_create_data_done
  simp only []
  split_ifs
  · rfl
  · rw [keep_key_fresh_hs]
    simp [hs_view, initiation_times, send_walk_initiations]
  · rw [keep_key_fresh_hs]
    simp [hs_view, initiation_times, send_walk_initiations]

theorem queue_dequeue_hs (s : State) : hs_view (queue_dequeue s) = hs_view s := by
  unfold queue_dequeue
  cases s.tx_queue with
  | nil => rfl
  | cons ctx rest => simp [hs_view, initiation_times]

theorem tx_ctx_hs (K : Consts) (E : Env) (now : Nat) (ctx : Nat) (s : State) :
    hs_view (tx_ctx K E now ctx s) = hs_view s := by
  unfold tx_ctx
  simp only []
  have h1 := peer_put_hs (packet_create_data_done K E now
    ((queue_dequeue s).ctxs ctx).packets (queue_dequeue s))
  rw [create_data_done_hs, queue_dequeue_hs] at h1
  simp only [hs_view, initiation_times, List.filterMap_append, Prod.mk.injEq] at h1 ⊢
  simp [h1.1, h1.2]

theorem tx_worker_loop_hs (K : Consts) (E : Env) (now : Nat) (fuel : Nat) :
    ∀ s, hs_view (packet_tx_worker_loop K E now fuel s) = hs_view s := by
  induction fuel with
  | zero => intro s; rfl
  | succ n ih =>
    intro s
    unfold packet_tx_worker_loop queue_first_per_peer
    cases h : s.tx_queue with
    | nil => rfl
    | cons ctx rest =>
      simp only []
      split_ifs
      · rw [ih, tx_ctx_hs]
      · rfl

theorem step_hs (K : Consts) (E : Env) (now : Nat) (a : Action) (s : State)
    (ha : a ≠ Action.handshake_send_worker) :
    hs_view (step K E now a s) = hs_view s := by
  cases a with
  | stage skb => rfl
  | send_staged_packets => exact send_staged_hs K E now s
  | send_keepalive alloc => exact send_keepalive_hs K E now alloc s
  | encrypt_worker => exact encrypt_worker_loop_hs K E _ s
  | encrypt_finish i =>
    simp only [step]
    cases s.encrypt_queue.get? i with
    | none => rfl
    | some ctx => simp only []; rw [encrypt_ctx_hs]; rfl
  | tx_worker => exact tx_worker_loop_hs K E now _ s
  | send_queued_handshake_initiation r => exact queued_initiation_hs K now r s
  | handshake_send_worker => exact absurd rfl ha

theorem gate_gap (K : Consts) (last now : Nat) (hle : last ≤ now) (hnow : now < U64)
    (hRT : K.REKEY_TIMEOUT < 2 ^ 63)
    (hg : time_is_before_jiffies64 now (add64 last K.REKEY_TIMEOUT) = true) :
    last + K.REKEY_TIMEOUT < now := by
  unfold time_is_before_jiffies64 time_after64 s64_neg sub64 add64 U64 at *
  simp only [decide_eq_true_eq] at hg
  omega

theorem handshake_worker_hs (K : Consts) (E : Env) (now : Nat) (s : State) :
    hs_view (run_handshake_send_wq K E now s) = hs_view s ∨
    (time_is_before_jiffies64 now (add64 s.last_sent_handshake K.REKEY_TIMEOUT) = true ∧
      (hs_view (run_handshake_send_wq K E now s) = (now, initiation_times s) ∨
       hs_view (run_handshake_send_wq K E now s) = (now, initiation_times s ++ [now]))) := by
  unfold run_handshake_send_wq packet_handshake_send_worker
  split_ifs with hw
  · rw [peer_put_hs]
    unfold packet_send_handshake_initiation
    simp only []
    by_cases hg : time_is_before_jiffies64 now (add64 s.last_sent_handshake K.REKEY_TIMEOUT) = true
    · right
      refine ⟨hg, ?_⟩
      simp only [hg, Bool.not_true, Bool.false_eq_true, if_false]
      split_ifs
      · right; simp [hs_view, initiation_times]
      · left; simp [hs_view, initiation_times]
    · left
      simp only [Bool.not_eq_true] at hg
      simp [hg, hs_view, initiation_times]
  · left; rfl

theorem step_hs_inv (K : Consts) (E : Env) (t0 now : Nat) (a : Action) (s : State)
    (hRT : K.REKEY_TIMEOUT < 2 ^ 63) (hle : t0 ≤ now) (hnow : now < U64)
    (hinv : hs_inv K t0 s) : hs_inv K now (step K E now a s) := by
  obtain ⟨hp, hb⟩ := hinv
  by_cases ha : a = Action.handshake_send_worker
  · subst ha
    simp only [step]
    rcases handshake_worker_hs K E now s with h | ⟨hg, h | h⟩
    · simp only [hs_view, Prod.mk.injEq] at h
      refine ⟨by rw [h.2]; exact hp, ?_⟩
      intro x hx
      rw [h.2] at hx; rw [h.1]
      exact ⟨(hb x hx).1, le_trans (hb x hx).2 hle⟩
    · simp only [hs_view, Prod.mk.injEq] at h
      refine ⟨by rw [h.2]; exact hp, ?_⟩
      intro x hx
      rw [h.2] at hx; rw [h.1]
      exact ⟨le_trans (hb x hx).1 (le_trans (hb x hx).2 hle), le_refl _⟩
    · simp only [hs_view, Prod.mk.injEq] at h
      refine ⟨?_, ?_⟩
      · rw [h.2, List.pairwise_append]
        refine ⟨hp, List.pairwise_singleton _ _, ?_⟩
        intro x hx y hy
        simp only [List.mem_singleton] at hy
        subst hy
        have hl : s.last_sent_handshake ≤ y := le_trans (hb x hx).2 hle
        have := gate_gap K s.last_sent_handshake y hl hnow hRT hg
        have := (hb x hx).1
        omega
      · intro x hx
        rw [h.2] at hx; rw [h.1]
        simp only [List.mem_append, List.mem_singleton] at hx
        rcases hx with hx | hx
        · exact ⟨le_trans (hb x hx).1 (le_trans (hb x hx).2 hle), le_refl _⟩
        · subst hx; exact ⟨le_refl _, le_refl _⟩
  · have h := step_hs K E now a s ha
    simp only [hs_view, Prod.mk.injEq] at h
    refine ⟨by rw [h.2]; exact hp, ?_⟩
    intro x hx
    rw [h.2] at hx; rw [h.1]
    exact ⟨(hb x hx).1, le_trans (hb x hx).2 hle⟩

theorem run_hs_inv (K : Consts) (E : Env) (hRT : K.REKEY_TIMEOUT < 2 ^ 63)
    (sched : List (Nat × Action)) :
    ∀ (t0 : Nat) (s : State), hs_inv K t0 s →
      (∀ x ∈ sched, t0 ≤ x.1) →
      (sched.map Prod.fst).Pairwise (fun a b => a ≤ b) →
      (∀ x ∈ sched, x.1 < U64) →
      (initiation_times (run K E sched s)).Pairwise (fun t1 t2 => t1 + K.REKEY_TIMEOUT < t2) := by
  induction sched with
  | nil => intro t0 s h _ _ _; exact h.1
  | cons x rest ih =>
    intro t0 s hinv hlow hsorted hU
    obtain ⟨now, a⟩ := x
    simp only [run]
    simp only [List.map_cons, List.pairwise_cons] at hsorted
    apply ih now (step K E now a s)
    · exact step_hs_inv K E t0 now a s hRT (hlow (now, a) (List.mem_cons_self _ _))
        (hU (now, a) (List.mem_cons_self _ _)) hinv
    · intro y hy
      exact hsorted.1 y.1 (List.mem_map_of_mem _ hy)
    · exact hsorted.2
    · intro y hy; exact hU y (List.mem_cons_of_mem _ hy)

/-- Claim C4. Along every schedule of actions on the peer at non-decreasing jiffies values
(below `2 ^ 64`, with `REKEY_TIMEOUT < 2 ^ 63`), any two handshake initiations emitted at
`t1` before `t2` satisfy `t1 + REKEY_TIMEOUT < t2`; and `packet_send_handshake_initiation`
emits only when `last_sent_handshake + REKEY_TIMEOUT` is before the current jiffies,
having set `last_sent_handshake` to the current jiffies. -/
theorem initiation_rate_limited (K : Consts) (E : Env) (sched : List (Nat × Action)) (s : State)
    (hRT : K.REKEY_TIMEOUT < 2 ^ 63)
    (hsorted : (sched.map Prod.fst).Pairwise (fun a b => a ≤ b))
    (hU : ∀ x ∈ sched, x.1 < U64)
    (h0 : initiation_times s = []) :
    (initiation_times (run K E sched s)).Pairwise (fun t1 t2 => t1 + K.REKEY_TIMEOUT < t2) ∧
    (∀ (now : Nat) (s1 : State),
      initiation_times (packet_send_handshake_initiation K E now s1) ≠ initiation_times s1 →
      time_is_before_jiffies64 now (add64 s1.last_sent_handshake K.REKEY_TIMEOUT) = true ∧
      (packet_send_handshake_initiation K E now s1).last_sent_handshake = now ∧
      initiation_times (packet_send_handshake_initiation K E now s1) =
        initiation_times s1 ++ [now]) := by
  constructor
  · apply run_hs_inv K E hRT sched 0 s
    · refine ⟨by rw [h0]; exact List.Pairwise.nil, ?_⟩
      intro a ha; rw [h0] at ha; cases ha
    · intro x _; exact Nat.zero_le _
    · exact hsorted
    · exact hU
  · intro now s1 hne
    unfold packet_send_handshake_initiation at hne ⊢
    simp only [] at hne ⊢
    by_cases hg : time_is_before_jiffies64 now (add64 s1.last_sent_handshake K.REKEY_TIMEOUT) = true
    · simp only [hg, Bool.not_true, Bool.false_eq_true, if_false] at hne ⊢
      by_cases hc : E.noise_handshake_create_initiation now = true
      · simp [hc, initiation_times]
      · simp only [hc, if_false] at hne
        exact absurd rfl hne
    · simp only [Bool.not_eq_true] at hg
      simp only [hg, Bool.not_false, if_true] at hne
      exact absurd rfl hne

/-- Witness of C4: three requests, of which the second falls inside the timeout. -/
theorem initiation_rate_limited_witness :
    (initiation_times (run K0 E0
      [(106, Action.send_queued_handshake_initiation false), (107, Action.handshake_send_worker),
       (108, Action.send_queued_handshake_initiation false), (109, Action.handshake_send_worker),
       (113, Action.send_queued_handshake_initiation true), (114, Action.handshake_send_worker)]
      (mkState 1 none 0 []))).Pairwise (fun t1 t2 => t1 + K0.REKEY_TIMEOUT < t2) ∧
    initiation_times (run K0 E0
      [(106, Action.send_queued_handshake_initiation false), (107, Action.handshake_send_worker),
       (108, Action.send_queued_handshake_initiation false), (109, Action.handshake_send_worker),
       (113, Action.send_queued_handshake_initiation true), (114, Action.handshake_send_worker)]
      (mkState 1 none 0 [])) = [107, 114] :=
  ⟨(initiation_rate_limited K0 E0
      [(106, Action.send_queued_handshake_initiation false), (107, Action.handshake_send_worker),
       (108, Action.send_queued_handshake_initiation false), (109, Action.handshake_send_worker),
       (113, Action.send_queued_handshake_initiation true), (114, Action.handshake_send_worker)]
      (mkState 1 none 0 []) (by decide) (by decide) (by decide) rfl).1, by decide⟩

/-! ## Serial completion order (C5) -/

theorem peer_put_q (s : State) : q_view (peer_put s) = q_view s ∧ (peer_put s).ctxs = s.ctxs := by
  by_cases h : s.refcount = 0 <;> by_cases h2 : s.refcount - 1 = 0 <;>
    simp [peer_put, kref_release, q_view, surfaced, submitted, h, h2]

theorem noise_keypair_put_q (k : Option Nat) (s : State) :
    q_view (noise_keypair_put k s) = q_view s ∧ (noise_keypair_put k s).ctxs = s.ctxs := by
  unfold noise_keypair_put q_view surfaced submitted
  cases k with
  | none => simp
  | some k => simp only []; split_ifs <;> simp

theorem noise_keypair_get_q (k : Option Nat) (s : State) :
    q_view (noise_keypair_get k s).2 = q_view s ∧ (noise_keypair_get k s).2.ctxs = s.ctxs := by
  unfold noise_keypair_get
  cases k with
  | none => exact ⟨rfl, rfl⟩
  | some k => simp only []; split_ifs <;> exact ⟨rfl, rfl⟩

theorem queued_initiation_q (K : Consts) (now : Nat) (r : Bool) (s : State) :
    q_view (packet_send_queued_handshake_initiation K now r s) = q_view s ∧
    (packet_send_queued_handshake_initiation K now r s).ctxs = s.ctxs := by
  rw [queued_initiation_eq]
  unfold q_view surfaced submitted
  split_ifs <;> simp

theorem out_nokey_q (K : Consts) (now : Nat) (k : Option Nat) (p : List Skb) (s : State) :
    q_view (out_nokey K now k p s) = q_view s := by
  unfold out_nokey
  simp only []
  rw [(queued_initiation_q _ _ _ _).1]
  have := (noise_keypair_put_q k s).1
  simpa [q_view, surfaced, submitted] using this

theorem out_invalid_q (K : Consts) (now : Nat) (k : Nat) (p : List Skb) (s : State) :
    q_view (out_invalid K now k p s) = q_view s := by
  unfold out_invalid
  simp only []
  rw [out_nokey_q]; rfl

theorem order_inv_of_q (s s1 : State) (h : q_view s1 = q_view s) (hi : order_inv s) :
    order_inv s1 := by
  simp only [q_view, Prod.mk.injEq] at h
  unfold order_inv at *
  rw [h.1, h.2.1, h.2.2]; exact hi

theorem packet_create_data_order (E : Env) (p : List Skb) (k : Nat) (s : State)
    (hi : order_inv s) : order_inv (packet_create_data E p k s) := by
  unfold packet_create_data queue_enqueue_per_device_and_peer
  simp only []
  split_ifs
  · apply order_inv_of_q s _ _ hi
    rw [(peer_put_q _).1, (noise_keypair_put_q _ _).1]; rfl
  · unfold order_inv at *
    simp only [surfaced, submitted, List.filterMap_append] at hi ⊢
    simp [← hi]
  · simp only []
    apply order_inv_of_q s _ _ hi
    rw [(peer_put_q _).1, (noise_keypair_put_q _ _).1]
    simp [q_view, surfaced, submitted]

theorem send_staged_order (K : Consts) (E : Env) (now : Nat) (s : State) (hi : order_inv s) :
    order_inv (packet_send_staged_packets K E now s) := by
  unfold packet_send_staged_packets
  simp only []
  split_ifs
  · exact hi
  · have hg := (noise_keypair_get_q s.current_keypair { s with staged_packet_queue := [] }).1
    generalize noise_keypair_get s.current_keypair { s with staged_packet_queue := [] } = r at hg
    obtain ⟨o, s1⟩ := r
    have hs1 : order_inv s1 := order_inv_of_q s s1 hg hi
    cases o with
    | none => simp only []; exact order_inv_of_q s1 _ (out_nokey_q _ _ _ _ _) hs1
    | some k =>
      simp only []
      split_ifs
      · exact order_inv_of_q s1 _ (out_nokey_q _ _ _ _ _) hs1
      · exact order_inv_of_q s1 _ (out_invalid_q _ _ _ _ _) hs1
      · exact order_inv_of_q s1 _ (by rw [out_invalid_q]; rfl) hs1
      · unfold peer_rcu_get peer_get
        split_ifs
        · exact hs1
        · simp only []
          apply packet_create_data_order
          exact hs1

theorem send_keepalive_order (K : Consts) (E : Env) (now : Nat) (alloc : Bool) (s : State)
    (hi : order_inv s) : order_inv (packet_send_keepalive K E now alloc s) := by
  unfold packet_send_keepalive
  split_ifs
  · exact hi
  · exact send_staged_order K E now _ hi
  · exact send_staged_order K E now _ hi

theorem encrypt_ctx_q (K : Consts) (E : Env) (ctx : Nat) (s : State) :
    q_view (encrypt_ctx K E ctx s) = q_view s := by
  unfold encrypt_ctx peer_rcu_get peer_get
  simp only []
  split_ifs
  · rfl
  · simp only []; rw [(peer_put_q _).1]; rfl

theorem encrypt_worker_loop_q (K : Consts) (E : Env) (fuel : Nat) :
    ∀ s, q_view (packet_encrypt_worker_loop K E fuel s) = q_view s := by
  induction fuel with
  | zero => intro s; rfl
  | succ n ih =>
    intro s
    unfold packet_encrypt_worker_loop queue_dequeue_per_device
    cases h : s.encrypt_queue with
    | nil => rfl
    | cons ctx rest => simp only []; rw [ih, encrypt_ctx_q]; rfl

theorem keep_key_fresh_q (K : Consts) (now : Nat) (s : State) :
    q_view (keep_key_fresh K now s) = q_view s ∧ (keep_key_fresh K now s).ctxs = s.ctxs := by
  unfold keep_key_fresh
  simp only []
  split_ifs
  · exact queued_initiation_q _ _ _ _
  · exact ⟨rfl, rfl⟩

theorem send_walk_queue_events (K : Consts) (E : Env) (q : List Skb) :
    ∀ d,
      (send_walk K E q d).1.filterMap (fun e => match e with
        | Event.queue_dequeue ctx => some ctx
        | _ => none) = [] ∧
      (send_walk K E q d).1.filterMap (fun e => match e with
        | Event.queue_enqueue ctx => some ctx
        | _ => none) = [] := by
  induction q with
  | nil => intro d; exact ⟨rfl, rfl⟩
  | cons skb rest ih => intro d; simp [send_walk, ih]

theorem create_data_done_q (K : Consts) (E : Env) (now : Nat) (q : List Skb) (s : State) :
    q_view (packet_create_data_done K E now q s) = q_view s ∧
    (packet_create_data_done K E now q s).ctxs = s.ctxs := by
  unfold packet_create_data_done
  simp only []
  split_ifs
  · exact ⟨rfl, rfl⟩
  · rw [(keep_key_fresh_q _ _ _).1, (keep_key_fresh_q _ _ _).2]
    simp [q_view, surfaced, submitted, send_walk_queue_events]
  · rw [(keep_key_fresh_q _ _ _).1, (keep_key_fresh_q _ _ _).2]
    simp [q_view, surfaced, submitted, send_walk_queue_events]

theorem queue_dequeue_q (s : State) (ctx : Nat) (rest : List Nat)
    (hq : s.tx_queue = ctx :: rest) :
    q_view (queue_dequeue s) = (rest, surfaced s ++ [ctx], submitted s) ∧
    (queue_dequeue s).ctxs = s.ctxs := by
  unfold queue_dequeue
  rw [hq]
  simp [q_view, surfaced, submitted]

theorem tx_ctx_q (K : Consts) (E : Env) (now : Nat) (ctx : Nat) (rest : List Nat) (s : State)
    (hq : s.tx_queue = ctx :: rest) :
    q_view (tx_ctx K E now ctx s) = (rest, surfaced s ++ [ctx], submitted s) ∧
    (tx_ctx K E now ctx s).ctxs = s.ctxs := by
  unfold tx_ctx
  simp only []
  generalize ((queue_dequeue s).ctxs ctx).packets = p
  have h1 := peer_put_q (packet_create_data_done K E now p (queue_dequeue s))
  rw [(create_data_done_q _ _ _ _ _).1, (create_data_done_q _ _ _ _ _).2,
    (queue_dequeue_q s ctx rest hq).1, (queue_dequeue_q s ctx rest hq).2] at h1
  simp only [q_view, surfaced, submitted, List.filterMap_append, Prod.mk.injEq] at h1 ⊢
  simp [h1.1.1, h1.1.2.1, h1.1.2.2, h1.2]

theorem tx_worker_loop_spec (K : Consts) (E : Env) (now : Nat) (fuel : Nat) :
    ∀ s, s.tx_queue.length ≤ fuel →
      q_view (packet_tx_worker_loop K E now fuel s) =
        (s.tx_queue.dropWhile (fun c => (s.ctxs c).is_finished),
         surfaced s ++ s.tx_queue.takeWhile (fun c => (s.ctxs c).is_finished),
         submitted s) ∧
      (packet_tx_worker_loop K E now fuel s).ctxs = s.ctxs := by
  induction fuel with
  | zero =>
    intro s h
    have : s.tx_queue = [] := List.length_eq_zero.mp (Nat.le_zero.mp h)
    simp [packet_tx_worker_loop, q_view, this]
  | succ n ih =>
    intro s h
    unfold packet_tx_worker_loop queue_first_per_peer
    cases hq : s.tx_queue with
    | nil => simp [q_view, hq]
    | cons ctx rest =>
      simp only []
      rw [hq] at h
      simp only [List.length_cons, Nat.add_le_add_iff_right] at h
      obtain ⟨t1, t2⟩ := tx_ctx_q K E now ctx rest s hq
      have hrest : (tx_ctx K E now ctx s).tx_queue = rest := by
        simp only [q_view, Prod.mk.injEq] at t1; exact t1.1
      by_cases hf : (s.ctxs ctx).is_finished = true
      · simp only [hf, if_true]
        obtain ⟨i1, i2⟩ := ih (tx_ctx K E now ctx s) (by rw [hrest]; exact h)
        rw [i1, i2, t2, hrest]
        simp only [q_view, Prod.mk.injEq] at t1
        simp [t1.2.1, t1.2.2, List.dropWhile_cons, List.takeWhile_cons, hf]
      · simp only [hf]
        simp [q_view, hq, List.dropWhile_cons, List.takeWhile_cons, hf]

theorem step_order (K : Consts) (E : Env) (now : Nat) (a : Action) (s : State)
    (hi : order_inv s) : order_inv (step K E now a s) := by
  cases a with
  | stage skb => exact hi
  | send_staged_packets => exact send_staged_order K E now s hi
  | send_keepalive alloc => exact send_keepalive_order K E now alloc s hi
  | encrypt_worker => exact order_inv_of_q s _ (encrypt_worker_loop_q K E _ s) hi
  | encrypt_finish i =>
    simp only [step]
    cases s.encrypt_queue.get? i with
    | none => exact hi
    | some ctx => exact order_inv_of_q s _ (by rw [encrypt_ctx_q]; rfl) hi
  | tx_worker =>
    simp only [step, packet_tx_worker]
    have h := (tx_worker_loop_spec K E now s.tx_queue.length s (le_refl _)).1
    simp only [q_view, Prod.mk.injEq] at h
    unfold order_inv at *
    rw [h.1, h.2.1, h.2.2, List.append_assoc, List.takeWhile_append_dropWhile]
    exact hi
  | send_queued_handshake_initiation r =>
    exact order_inv_of_q s _ (queued_initiation_q K now r s).1 hi
  | handshake_send_worker =>
    simp only [step, run_handshake_send_wq, packet_handshake_send_worker]
    split_ifs
    · apply order_inv_of_q s _ _ hi
      rw [(peer_put_q _).1]
      unfold packet_send_handshake_initiation
      simp only []
      split_ifs <;> simp [q_view, surfaced, submitted]
    · exact hi

theorem run_order (K : Consts) (E : Env) (sched : List (Nat × Action)) :
    ∀ s, order_inv s → order_inv (run K E sched s) := by
  induction sched with
  | nil => intro s h; exact h
  | cons x rest ih =>
    intro s h
    obtain ⟨now, a⟩ := x
    exact ih _ (step_order K E now a s h)

/-- Claim C5. A run of `packet_tx_worker` takes exactly the longest prefix of finished
batches off the peer tx queue, surfaces them head first and leaves the rest; and along
every schedule, whatever the order in which batches are finished, the batches surfaced so
far followed by the batches still queued are the batches submitted, in submission order:
the surfaced sequence is a prefix of the submitted one. -/
theorem tx_worker_fifo (K : Consts) (E : Env) (now : Nat) (s0 : State)
    (sched : List (Nat × Action)) (s : State) (hi : surfaced s ++ s.tx_queue = submitted s) :
    ((packet_tx_worker K E now s0).tx_queue =
        s0.tx_queue.dropWhile (fun c => (s0.ctxs c).is_finished) ∧
      surfaced (packet_tx_worker K E now s0) =
        surfaced s0 ++ s0.tx_queue.takeWhile (fun c => (s0.ctxs c).is_finished) ∧
      submitted (packet_tx_worker K E now s0) = submitted s0) ∧
    (surfaced (run K E sched s) ++ (run K E sched s).tx_queue = submitted (run K E sched s) ∧
      surfaced (run K E sched s) =
        (submitted (run K E sched s)).take (surfaced (run K E sched s)).length) := by
  constructor
  · have h := (tx_worker_loop_spec K E now s0.tx_queue.length s0 (le_refl _)).1
    simp only [q_view, Prod.mk.injEq] at h
    exact h
  · have h : order_inv (run K E sched s) := run_order K E sched s hi
    unfold order_inv at h
    refine ⟨h, ?_⟩
    rw [← h]; simp

/-- Witness of C5: three batches finished in the order third, first, second. -/
theorem tx_worker_fifo_witness :
    surfaced (run K0 E0 fifo_schedule (mkState 1 (some 0) 0 [])) ++
        (run K0 E0 fifo_schedule (mkState 1 (some 0) 0 [])).tx_queue =
      submitted (run K0 E0 fifo_schedule (mkState 1 (some 0) 0 [])) ∧
    surfaced (run K0 E0 fifo_schedule (mkState 1 (some 0) 0 [])) = [0, 1, 2] ∧
    surfaced (run K0 E0 (fifo_schedule.take 8) (mkState 1 (some 0) 0 [])) = [] ∧
    surfaced (run K0 E0 (fifo_schedule.take 10) (mkState 1 (some 0) 0 [])) = [0] :=
  ⟨(tx_worker_fifo K0 E0 0 (mkState 1 (some 0) 0 []) fifo_schedule (mkState 1 (some 0) 0 [])
      rfl).2.1, by decide, by decide, by decide⟩

/-! ## The rekey threshold (C6) -/

/-- Counterexample to C6. A valid responder keypair with counter
`REKEY_AFTER_MESSAGES - 1 = 4`: the datagram goes out with nonce 4, and at its serial
completion no handshake initiation is requested, although a request would have queued
the handshake work. -/
theorem no_request_at_rekey_after_messages :
    ((mkState 1 (some 0) 4 []).keypairs 0).sending.counter = K0.REKEY_AFTER_MESSAGES - 1 ∧
    ((mkState 1 (some 0) 4 []).keypairs 0).sending.is_valid = true ∧
    Event.socket_send_skb_to_peer
        { data := 1, len := 144, sk := some 1, nonce := 4, ds := 0, header := some (7, 4) } 0 ∈
      (run K0 E0
        [(110, Action.stage (mkSkb 1 100)), (110, Action.send_staged_packets),
         (111, Action.encrypt_worker), (112, Action.tx_worker)]
        (mkState 1 (some 0) 4 [])).events ∧
    (run K0 E0
        [(110, Action.stage (mkSkb 1 100)), (110, Action.send_staged_packets),
         (111, Action.encrypt_worker), (112, Action.tx_worker)]
        (mkState 1 (some 0) 4 [])).transmit_handshake_work = false ∧
    (run K0 E0
        [(110, Action.stage (mkSkb 1 100)), (110, Action.send_staged_packets),
         (111, Action.encrypt_worker), (112, Action.tx_worker)]
        (mkState 1 (some 0) 4 [])).timer_handshake_attempts = 3 ∧
    keep_key_fresh K0 112
        (run K0 E0
          [(110, Action.stage (mkSkb 1 100)), (110, Action.send_staged_packets),
           (111, Action.encrypt_worker), (112, Action.tx_worker)]
          (mkState 1 (some 0) 4 [])) =
      run K0 E0
          [(110, Action.stage (mkSkb 1 100)), (110, Action.send_staged_packets),
           (111, Action.encrypt_worker), (112, Action.tx_worker)]
          (mkState 1 (some 0) 4 []) ∧
    (packet_send_queued_handshake_initiation K0 112 false
        (run K0 E0
          [(110, Action.stage (mkSkb 1 100)), (110, Action.send_staged_packets),
           (111, Action.encrypt_worker), (112, Action.tx_worker)]
          (mkState 1 (some 0) 4 []))).transmit_handshake_work = true := by
  refine ⟨by decide, by decide, by decide, by decide, by decide, rfl, by decide⟩

theorem skb_encrypt_remote_index (K : Consts) (E : Env) (skb : Skb) (kp1 kp2 : Keypair)
    (h : kp1.remote_index = kp2.remote_index) :
    skb_encrypt K E skb kp1 = skb_encrypt K E skb kp2 := by
  unfold skb_encrypt
  rw [h]

theorem encrypt_worker_one (K : Consts) (E : Env) (s : State) (ctx k : Nat) (p enc : Skb)
    (hq : s.encrypt_queue = [ctx])
    (hc : s.ctxs ctx = { keypair := k, packets := [p], is_finished := false })
    (henc : skb_encrypt K E p (s.keypairs k) = some enc)
    (hp : 0 < s.refcount) :
    packet_encrypt_worker K E s =
      { s with
        encrypt_queue := []
        ctxs := (Function.update s.ctxs ctx
          { keypair := k, packets := [enc], is_finished := true }) } := by
  have hp0 : s.refcount ≠ 0 := by omega
  have hp2 : ¬ (s.refcount + 1 = 0) := by omega
  simp [packet_encrypt_worker, packet_encrypt_worker_loop, queue_dequeue_per_device, hq,
    encrypt_ctx, hc, henc, peer_rcu_get, peer_get, hp0, peer_put, kref_release]

theorem tx_worker_one (K : Consts) (E : Env) (now : Nat) (s : State) (ctx k : Nat) (enc : Skb)
    (hq : s.tx_queue = [ctx])
    (hc : s.ctxs ctx = { keypair := k, packets := [enc], is_finished := true }) :
    packet_tx_worker K E now s =
      { peer_put (keep_key_fresh K now
          { s with
            tx_queue := []
            events := s.events ++
              ([Event.queue_dequeue ctx, Event.timers_any_authenticated_packet_traversal,
                Event.socket_send_skb_to_peer enc (E.socket_send_skb_to_peer enc)] ++
               (if E.socket_send_skb_to_peer enc = 0 ∧ enc.len ≠ message_data_len K 0
                then [Event.timers_data_sent] else [])) }) with
        events := (peer_put (keep_key_fresh K now
          { s with
            tx_queue := []
            events := s.events ++
              ([Event.queue_dequeue ctx, Event.timers_any_authenticated_packet_traversal,
                Event.socket_send_skb_to_peer enc (E.socket_send_skb_to_peer enc)] ++
               (if E.socket_send_skb_to_peer enc = 0 ∧ enc.len ≠ message_data_len K 0
                then [Event.timers_data_sent] else [])) })).events ++
          [Event.kmem_cache_free ctx] } := by
  by_cases hsent : E.socket_send_skb_to_peer enc = 0 ∧ enc.len ≠ message_data_len K 0
  · have h1 := hsent.1
    have h2 := hsent.2
    simp [packet_tx_worker, packet_tx_worker_loop, queue_first_per_peer, queue_dequeue, hq, hc,
      tx_ctx, packet_create_data_done, send_walk, h1, h2]
  · have h3 : ¬ (E.socket_send_skb_to_peer enc = 0 ∧ ¬ enc.len = message_data_len K 0) := hsent
    simp [packet_tx_worker, packet_tx_worker_loop, queue_first_per_peer, queue_dequeue, hq, hc,
      tx_ctx, packet_create_data_done, send_walk, hsent, h3]

theorem one_datagram_pipeline (K : Consts) (E : Env) (t1 t2 t3 : Nat) (s : State) (k c : Nat)
    (skb enc : Skb)
    (hR : K.REJECT_AFTER_MESSAGES < U64)
    (hcur : s.current_keypair = some k)
    (hvalid : (s.keypairs k).sending.is_valid = true)
    (hcnt : (s.keypairs k).sending.counter = c)
    (hsum : c + 1 ≤ K.REJECT_AFTER_MESSAGES)
    (hkref : 0 < (s.keypairs k).refcount)
    (hpref : 0 < s.refcount)
    (hst : s.staged_packet_queue = [])
    (htx : s.tx_queue = [])
    (heq : s.encrypt_queue = [])
    (hfresh : time_is_before_eq_jiffies64 t1
      (add64 (s.keypairs k).sending.birthdate K.REJECT_AFTER_TIME) = false)
    (halloc : E.kmem_cache_alloc s.next_ctx = true)
    (henq : E.queue_enqueue_ok s.next_ctx = true)
    (henc : skb_encrypt K E { skb with ds := E.ip_tunnel_ecn_encap skb, nonce := c }
      (s.keypairs k) = some enc) :
    run K E [(t1, Action.stage skb), (t1, Action.send_staged_packets),
        (t2, Action.encrypt_worker), (t3, Action.tx_worker)] s =
      { peer_put (keep_key_fresh K t3 (at_completion K E k c enc s)) with
        events := (peer_put (keep_key_fresh K t3 (at_completion K E k c enc s))).events ++
          [Event.kmem_cache_free s.next_ctx] } := by
  have hd := drain_ok K E t1 { s with staged_packet_queue := [skb] } k c hR hcur hvalid hcnt
    hkref hpref (by simp) hfresh halloc henq (by simpa using hsum)
  have he := encrypt_worker_one K E (drained E k c [skb] { s with staged_packet_queue := [skb] })
    s.next_ctx k { skb with ds := E.ip_tunnel_ecn_encap skb, nonce := c } enc
    (by simp [drained, heq]) (by simp [drained, label])
    (by
      rw [← henc]
      apply skb_encrypt_remote_index
      simp [drained])
    (by simp [drained])
  have ht := tx_worker_one K E t3
    { drained E k c [skb] { s with staged_packet_queue := [skb] } with
      encrypt_queue := []
      ctxs := (Function.update
        (drained E k c [skb] { s with staged_packet_queue := [skb] }).ctxs s.next_ctx
        { keypair := k, packets := [enc], is_finished := true }) }
    s.next_ctx k enc (by simp [drained, htx]) (by simp)
  have hX : ({ ({ drained E k c [skb] { s with staged_packet_queue := [skb] } with
      encrypt_queue := []
      ctxs := (Function.update
        (drained E k c [skb] { s with staged_packet_queue := [skb] }).ctxs s.next_ctx
        { keypair := k, packets := [enc], is_finished := true }) } : State) with
            tx_queue := []
            events := ({ drained E k c [skb] { s with staged_packet_queue := [skb] } with
                encrypt_queue := []
                ctxs := (Function.update
                  (drained E k c [skb] { s with staged_packet_queue := [skb] }).ctxs s.next_ctx
                  { keypair := k, packets := [enc], is_finished := true }) } : State).events ++
              ([Event.queue_dequeue s.next_ctx, Event.timers_any_authenticated_packet_traversal,
                Event.socket_send_skb_to_peer enc (E.socket_send_skb_to_peer enc)] ++
               (if E.socket_send_skb_to_peer enc = 0 ∧ enc.len ≠ message_data_len K 0
                then [Event.timers_data_sent] else [])) } : State) =
      at_completion K E k c enc s := by
    simp [drained, at_completion]
  rw [hX] at ht
  simp only [run, step, hst, List.nil_append]
  rw [hd]
  simp only [] at he
  rw [he]
  exact ht

theorem skb_encrypt_header (K : Consts) (E : Env) (skb enc : Skb) (kp : Keypair)
    (h : skb_encrypt K E skb kp = some enc) :
    enc.header = some (kp.remote_index, skb.nonce) ∧ enc.data = skb.data := by
  unfold skb_encrypt at h
  simp only [] at h
  split_ifs at h
  simp only [Option.some.injEq] at h
  subst h
  exact ⟨rfl, rfl⟩

theorem peer_put_events (s : State) : (peer_put s).events = s.events := by
  by_cases h : s.refcount = 0 <;> by_cases h2 : s.refcount - 1 = 0 <;>
    simp [peer_put, kref_release, h, h2]

theorem keep_key_fresh_events (K : Consts) (now : Nat) (s : State) :
    (keep_key_fresh K now s).events = s.events := by
  unfold keep_key_fresh
  simp only []
  split_ifs
  · exact (queued_initiation_frame K now false s).2.2.2.2.2.2.2.1
  · rfl

/-- Claim C6, amended. On an idle peer whose valid current keypair has counter
`REKEY_AFTER_MESSAGES - 1`, staging one datagram, draining, encrypting and completing it
hands the datagram to the socket with nonce `REKEY_AFTER_MESSAGES - 1` in its header and
leaves the counter at `REKEY_AFTER_MESSAGES`; `keep_key_fresh` at the serial completion
requests a handshake initiation exactly when the peer is the initiator of the keypair and
the keypair is at least `REKEY_AFTER_TIME` old. -/
theorem rekey_boundary (K : Consts) (E : Env) (t1 t2 t3 : Nat) (s : State) (k : Nat)
    (skb enc : Skb)
    (hR : K.REJECT_AFTER_MESSAGES < U64)
    (hlt : K.REKEY_AFTER_MESSAGES < K.REJECT_AFTER_MESSAGES)
    (hcur : s.current_keypair = some k)
    (hvalid : (s.keypairs k).sending.is_valid = true)
    (hcnt : (s.keypairs k).sending.counter + 1 = K.REKEY_AFTER_MESSAGES)
    (hkref : 0 < (s.keypairs k).refcount)
    (hpref : 0 < s.refcount)
    (hst : s.staged_packet_queue = [])
    (htx : s.tx_queue = [])
    (heq : s.encrypt_queue = [])
    (hfresh : time_is_before_eq_jiffies64 t1
      (add64 (s.keypairs k).sending.birthdate K.REJECT_AFTER_TIME) = false)
    (halloc : E.kmem_cache_alloc s.next_ctx = true)
    (henq : E.queue_enqueue_ok s.next_ctx = true)
    (henc : skb_encrypt K E
      { skb with ds := E.ip_tunnel_ecn_encap skb, nonce := K.REKEY_AFTER_MESSAGES - 1 }
      (s.keypairs k) = some enc) :
    run K E [(t1, Action.stage skb), (t1, Action.send_staged_packets),
        (t2, Action.encrypt_worker), (t3, Action.tx_worker)] s =
      { peer_put (keep_key_fresh K t3
          (at_completion K E k (K.REKEY_AFTER_MESSAGES - 1) enc s)) with
        events := (peer_put (keep_key_fresh K t3
          (at_completion K E k (K.REKEY_AFTER_MESSAGES - 1) enc s))).events ++
          [Event.kmem_cache_free s.next_ctx] } ∧
    Event.socket_send_skb_to_peer enc (E.socket_send_skb_to_peer enc) ∈
      (run K E [(t1, Action.stage skb), (t1, Action.send_staged_packets),
        (t2, Action.encrypt_worker), (t3, Action.tx_worker)] s).events ∧
    enc.header = some ((s.keypairs k).remote_index, K.REKEY_AFTER_MESSAGES - 1) ∧
    enc.data = skb.data ∧
    ((at_completion K E k (K.REKEY_AFTER_MESSAGES - 1) enc s).keypairs k).sending.counter =
      K.REKEY_AFTER_MESSAGES ∧
    keep_key_fresh K t3 (at_completion K E k (K.REKEY_AFTER_MESSAGES - 1) enc s) =
      (if ((s.keypairs k).i_am_the_initiator &&
            time_is_before_eq_jiffies64 t3
              (add64 (s.keypairs k).sending.birthdate K.REKEY_AFTER_TIME)) = true
       then packet_send_queued_handshake_initiation K t3 false
          (at_completion K E k (K.REKEY_AFTER_MESSAGES - 1) enc s)
       else at_completion K E k (K.REKEY_AFTER_MESSAGES - 1) enc s) := by
  have hc : (s.keypairs k).sending.counter = K.REKEY_AFTER_MESSAGES - 1 := by omega
  have hrun := one_datagram_pipeline K E t1 t2 t3 s k (K.REKEY_AFTER_MESSAGES - 1) skb enc hR
    hcur hvalid hc (by omega) hkref hpref hst htx heq hfresh halloc henq henc
  have hh := skb_encrypt_header K E _ enc _ henc
  refine ⟨hrun, ?_, hh.1, hh.2, ?_, ?_⟩
  · rw [hrun]
    simp only [peer_put_events, keep_key_fresh_events]
    simp [at_completion]
  · simp only [at_completion, Function.update_same]
    omega
  · have hk1 : K.REKEY_AFTER_MESSAGES - 1 + 1 = K.REKEY_AFTER_MESSAGES := by omega
    simp only [keep_key_fresh, at_completion, hcur, Function.update_same, hvalid, hk1,
      gt_iff_lt, lt_self_iff_false, decide_False, Bool.false_or, Bool.true_and]

/-- Witness of amended C6: counter 4 with `REKEY_AFTER_MESSAGES = 5`. -/
theorem rekey_boundary_witness :
    Event.socket_send_skb_to_peer
        { data := 1, len := 144, sk := some 1, nonce := 4, ds := 0, header := some (7, 4) } 0 ∈
      (run K0 E0
        [(110, Action.stage (mkSkb 1 100)), (110, Action.send_staged_packets),
         (111, Action.encrypt_worker), (112, Action.tx_worker)]
        (mkState 1 (some 0) 4 [])).events :=
  (rekey_boundary K0 E0 110 111 112 (mkState 1 (some 0) 4 []) 0 (mkSkb 1 100)
    { data := 1, len := 144, sk := some 1, nonce := 4, ds := 0, header := some (7, 4) }
    (by decide) (by decide) rfl rfl rfl (by decide) (by decide) rfl rfl rfl (by decide) rfl rfl
    (by decide)).2.1

/-! ## Invalid keys (C7) -/

theorem kept_refl (k : Nat) (s : State) : kept k s s :=
  ⟨rfl, fun _ h1 h2 => ⟨h1, h2⟩⟩

theorem kept_trans (k : Nat) (s s1 s2 : State) (h1 : kept k s s1) (h2 : kept k s1 s2) :
    kept k s s2 := by
  refine ⟨h2.1.trans h1.1, ?_⟩
  intro ctx hc hk
  obtain ⟨a, b⟩ := h2.2 ctx hc hk
  exact h1.2 ctx a b

theorem kept_of_view (k : Nat) (s s1 : State) (h : k_view s1 = k_view s) : kept k s s1 := by
  simp only [k_view, Prod.mk.injEq] at h
  refine ⟨congrFun h.1 k, ?_⟩
  intro ctx hc hk
  rw [h.2.1] at hc
  rw [h.2.2] at hk
  exact ⟨hc, hk⟩

theorem peer_put_k (s : State) : k_view (peer_put s) = k_view s := by
  by_cases h : s.refcount = 0 <;> by_cases h2 : s.refcount - 1 = 0 <;>
    simp [peer_put, kref_release, k_view, h, h2]

theorem sending_update_refcount (f : Nat → Keypair) (k : Nat) (kp : Keypair)
    (h : kp.sending = (f k).sending) :
    (fun j => (Function.update f k kp j).sending) = fun j => (f j).sending := by
  funext j
  by_cases hj : j = k
  · subst hj; simp [h]
  · simp [Function.update_noteq hj]

theorem noise_keypair_put_k (k : Option Nat) (s : State) :
    k_view (noise_keypair_put k s) = k_view s := by
  unfold noise_keypair_put k_view
  cases k with
  | none => rfl
  | some k =>
    simp only []
    split_ifs
    · rfl
    · simp only [Prod.mk.injEq, and_true]
      exact sending_update_refcount _ _ _ rfl

theorem noise_keypair_get_k (k : Option Nat) (s : State) :
    k_view (noise_keypair_get k s).2 = k_view s := by
  unfold noise_keypair_get k_view
  cases k with
  | none => rfl
  | some k =>
    simp only []
    split_ifs
    · rfl
    · simp only [Prod.mk.injEq, and_true]
      exact sending_update_refcount _ _ _ rfl

theorem queued_initiation_k (K : Consts) (now : Nat) (r : Bool) (s : State) :
    k_view (packet_send_queued_handshake_initiation K now r s) = k_view s := by
  rw [queued_initiation_eq]
  unfold k_view
  split_ifs <;> rfl

theorem out_nokey_k (K : Consts) (now : Nat) (k : Option Nat) (p : List Skb) (s : State) :
    k_view (out_nokey K now k p s) = k_view s := by
  unfold out_nokey
  simp only []
  rw [queued_initiation_k]
  have := noise_keypair_put_k k s
  simpa [k_view] using this

theorem out_invalid_kept (K : Consts) (now : Nat) (k j : Nat) (p : List Skb) (s : State)
    (hj : (s.keypairs j).sending.is_valid = false) :
    kept j s (out_invalid K now k p s) := by
  unfold out_invalid
  simp only []
  apply kept_trans j s _ _ _ (kept_of_view j _ _ (out_nokey_k _ _ _ _ _))
  refine ⟨?_, fun _ h1 h2 => ⟨h1, h2⟩⟩
  by_cases hjk : j = k
  · subst hjk
    simp only [Function.update_same]
    cases hs : (s.keypairs j).sending with
    | mk c b v =>
      rw [hs] at hj
      simp only at hj
      simp [hj]
  · simp [Function.update_noteq hjk]

theorem packet_create_data_kept (E : Env) (p : List Skb) (k j : Nat) (s : State)
    (hjk : j ≠ k) : kept j s (packet_create_data E p k s) := by
  unfold packet_create_data queue_enqueue_per_device_and_peer
  simp only []
  split_ifs
  · apply kept_of_view
    rw [peer_put_k, noise_keypair_put_k]; rfl
  · refine ⟨rfl, ?_⟩
    intro ctx hc hk
    simp only [List.mem_append, List.mem_singleton] at hc
    by_cases hx : ctx = s.next_ctx
    · subst hx
      simp only [Function.update_same] at hk
      exact absurd hk.symm hjk
    · simp only [Function.update_noteq hx] at hk
      rcases hc with hc | hc
      · exact ⟨hc, hk⟩
      · exact absurd hc hx
  · simp only []
    have hv := (peer_put_k (noise_keypair_put (some k)
      { s with
        next_ctx := s.next_ctx + 1
        ctxs := (Function.update s.ctxs s.next_ctx
          { keypair := k, packets := p, is_finished := false })
        events := s.events ++ [Event.kmem_cache_free s.next_ctx] })).trans
      (noise_keypair_put_k _ _)
    simp only [k_view, Prod.mk.injEq] at hv
    refine ⟨congrFun hv.1 j, ?_⟩
    intro ctx hc hk
    rw [hv.2.1] at hc
    rw [hv.2.2] at hk
    by_cases hx : ctx = s.next_ctx
    · subst hx
      simp only [Function.update_same] at hk
      exact absurd hk.symm hjk
    · simp only [Function.update_noteq hx] at hk
      exact ⟨hc, hk⟩

theorem send_staged_kept (K : Consts) (E : Env) (now : Nat) (j : Nat) (s : State)
    (hj : (s.keypairs j).sending.is_valid = false) :
    kept j s (packet_send_staged_packets K E now s) := by
  unfold packet_send_staged_packets
  simp only []
  split_ifs
  · exact kept_of_view j _ _ rfl
  · have hg := noise_keypair_get_k s.current_keypair { s with staged_packet_queue := [] }
    generalize noise_keypair_get s.current_keypair { s with staged_packet_queue := [] } = r at hg
    obtain ⟨o, s1⟩ := r
    have hk1 : kept j s s1 := kept_of_view j s s1 hg
    have hj1 : (s1.keypairs j).sending.is_valid = false := by rw [hk1.1]; exact hj
    cases o with
    | none =>
      simp only []
      exact kept_trans j s s1 _ hk1 (kept_of_view j _ _ (out_nokey_k _ _ _ _ _))
    | some k =>
      simp only []
      split_ifs with hv hexp hfail
      · exact kept_trans j s s1 _ hk1 (kept_of_view j _ _ (out_nokey_k _ _ _ _ _))
      · exact kept_trans j s s1 _ hk1 (out_invalid_kept K now k j _ s1 hj1)
      · have hjk : j ≠ k := by
          intro h; subst h; rw [hj1] at hv; simp at hv
        apply kept_trans j s s1 _ hk1
        apply kept_trans j s1 _ _ _ (out_invalid_kept K now k j _ _ ?_)
        · refine ⟨by simp [Function.update_noteq hjk], fun _ h1 h2 => ⟨h1, h2⟩⟩
        · simp only [Function.update_noteq hjk]; exact hj1
      · have hjk : j ≠ k := by
          intro h; subst h; rw [hj1] at hv; simp at hv
        apply kept_trans j s s1 _ hk1
        have hup : kept j s1 { s1 with keypairs := (Function.update s1.keypairs k
            { s1.keypairs k with
              sending := { (s1.keypairs k).sending with
                counter := (assign_nonces K E (s1.keypairs k).sending.counter
                  s.staged_packet_queue).2.1 } }) } :=
          ⟨by simp [Function.update_noteq hjk], fun _ h1 h2 => ⟨h1, h2⟩⟩
        apply kept_trans j s1 _ _ hup
        unfold peer_rcu_get peer_get
        split_ifs
        · exact kept_of_view j _ _ rfl
        · simp only []
          apply kept_trans j _ _ _ (kept_of_view j _ _ rfl) (packet_create_data_kept E _ k j _ hjk)

theorem send_keepalive_kept (K : Consts) (E : Env) (now : Nat) (alloc : Bool) (j : Nat)
    (s : State) (hj : (s.keypairs j).sending.is_valid = false) :
    kept j s (packet_send_keepalive K E now alloc s) := by
  unfold packet_send_keepalive
  split_ifs
  · exact kept_refl j s
  · exact kept_trans j s _ _ (kept_of_view j _ _ rfl) (send_staged_kept K E now j _ hj)
  · exact send_staged_kept K E now j s hj

theorem encrypt_ctx_kept (K : Consts) (E : Env) (ctx j : Nat) (s : State) :
    kept j s (encrypt_ctx K E ctx s) := by
  unfold encrypt_ctx peer_rcu_get peer_get
  simp only []
  split_ifs
  · refine ⟨rfl, ?_⟩
    intro c hc hk
    refine ⟨hc, ?_⟩
    by_cases hx : c = ctx
    · subst hx; simpa using hk
    · simpa [Function.update_noteq hx] using hk
  · simp only []
    have hv := peer_put_k
      { s with
        refcount := s.refcount + 1
        ctxs := (Function.update
          (Function.update s.ctxs ctx
            { s.ctxs ctx with
              packets := (s.ctxs ctx).packets.filterMap
                (fun skb => skb_encrypt K E skb (s.keypairs (s.ctxs ctx).keypair)) }) ctx
          { (Function.update s.ctxs ctx
              { s.ctxs ctx with
                packets := (s.ctxs ctx).packets.filterMap
                  (fun skb => skb_encrypt K E skb (s.keypairs (s.ctxs ctx).keypair)) }) ctx with
            is_finished := true }) }
    simp only [k_view, Prod.mk.injEq] at hv
    refine ⟨congrFun hv.1 j, ?_⟩
    intro c hc hk
    rw [hv.2.1] at hc
    rw [hv.2.2] at hk
    refine ⟨hc, ?_⟩
    by_cases hx : c = ctx
    · subst hx; simpa using hk
    · simpa [Function.update_noteq hx] using hk

theorem kept_dequeue (j : Nat) (s : State) (q : List Nat) (hq : ∀ c ∈ q, c ∈ s.encrypt_queue) :
    kept j s { s with encrypt_queue := q } :=
  ⟨rfl, fun c hc hk => ⟨hq c hc, hk⟩⟩

theorem encrypt_worker_loop_kept (K : Consts) (E : Env) (j : Nat) (fuel : Nat) :
    ∀ s, kept j s (packet_encrypt_worker_loop K E fuel s) := by
  induction fuel with
  | zero => intro s; exact kept_refl j s
  | succ n ih =>
    intro s
    unfold packet_encrypt_worker_loop queue_dequeue_per_device
    cases h : s.encrypt_queue with
    | nil => exact kept_refl j s
    | cons ctx rest =>
      simp only []
      apply kept_trans j s _ _ (kept_dequeue j s rest ?_)
      · exact kept_trans j _ _ _ (encrypt_ctx_kept K E ctx j _) (ih _)
      · intro c hc; rw [h]; exact List.mem_cons_of_mem _ hc

theorem keep_key_fresh_k (K : Consts) (now : Nat) (s : State) :
    k_view (keep_key_fresh K now s) = k_view s := by
  unfold keep_key_fresh
  simp only []
  split_ifs
  · exact queued_initiation_k _ _ _ _
  · rfl

theorem create_data_done_k (K : Consts) (E : Env) (now : Nat) (q : List Skb) (s : State) :
    k_view (packet_create_data_done K E now q s) = k_view s := by
  unfold packet_create_data_done
  simp only []
  split_ifs
  · rfl
  · rw [keep_key_fresh_k]; rfl
  · rw [keep_key_fresh_k]; rfl

theorem queue_dequeue_k (s : State) : k_view (queue_dequeue s) = k_view s := by
  unfold queue_dequeue
  cases s.tx_queue with
  | nil => rfl
  | cons ctx rest => rfl

theorem tx_ctx_k (K : Consts) (E : Env) (now : Nat) (ctx : Nat) (s : State) :
    k_view (tx_ctx K E now ctx s) = k_view s := by
  unfold tx_ctx
  simp only []
  have h1 := peer_put_k (packet_create_data_done K E now
    ((queue_dequeue s).ctxs ctx).packets (queue_dequeue s))
  rw [create_data_done_k, queue_dequeue_k] at h1
  simp only [k_view, Prod.mk.injEq] at h1 ⊢
  exact h1

theorem tx_worker_loop_k (K : Consts) (E : Env) (now : Nat) (fuel : Nat) :
    ∀ s, k_view (packet_tx_worker_loop K E now fuel s) = k_view s := by
  induction fuel with
  | zero => intro s; rfl
  | succ n ih =>
    intro s
    unfold packet_tx_worker_loop queue_first_per_peer
    cases h : s.tx_queue with
    | nil => rfl
    | cons ctx rest =>
      simp only []
      split_ifs
      · rw [ih, tx_ctx_k]
      · rfl

theorem step_kept (K : Consts) (E : Env) (now : Nat) (a : Action) (j : Nat) (s : State)
    (hj : (s.keypairs j).sending.is_valid = false) : kept j s (step K E now a s) := by
  cases a with
  | stage skb => exact kept_of_view j _ _ rfl
  | send_staged_packets => exact send_staged_kept K E now j s hj
  | send_keepalive alloc => exact send_keepalive_kept K E now alloc j s hj
  | encrypt_worker => exact encrypt_worker_loop_kept K E j _ s
  | encrypt_finish i =>
    simp only [step]
    cases hi : s.encrypt_queue.get? i with
    | none => exact kept_refl j s
    | some ctx =>
      simp only []
      apply kept_trans j s _ _ (kept_dequeue j s _ ?_) (encrypt_ctx_kept K E ctx j _)
      intro c hc
      exact List.mem_of_mem_eraseIdx hc
  | tx_worker => exact kept_of_view j _ _ (tx_worker_loop_k K E now _ s)
  | send_queued_handshake_initiation r => exact kept_of_view j _ _ (queued_initiation_k K now r s)
  | handshake_send_worker =>
    simp only [step, run_handshake_send_wq, packet_handshake_send_worker]
    split_ifs
    · apply kept_of_view
      rw [peer_put_k]
      unfold packet_send_handshake_initiation
      simp only []
      split_ifs <;> rfl
    · exact kept_refl j s

theorem run_kept (K : Consts) (E : Env) (j : Nat) (sched : List (Nat × Action)) :
    ∀ s, (s.keypairs j).sending.is_valid = false → kept j s (run K E sched s) := by
  induction sched with
  | nil => intro s _; exact kept_refl j s
  | cons x rest ih =>
    intro s hj
    obtain ⟨now, a⟩ := x
    have h1 := step_kept K E now a j s hj
    exact kept_trans j s _ _ h1 (ih _ (by rw [h1.1]; exact hj))

/-- Counterexample to C7. A batch is submitted under keypair 0; a later drain exhausts the
counter and marks keypair 0 invalid; `packet_encrypt_worker` then encrypts the queued
batch under keypair 0 and `packet_tx_worker` transmits it. -/
theorem encrypt_after_invalid :
    ((run K0 E0 invalidate_schedule (mkState 1 (some 0) 6 [])).keypairs 0).sending.is_valid
      = false ∧
    (run K0 E0 invalidate_schedule (mkState 1 (some 0) 6 [])).encrypt_queue = [0] ∧
    (run K0 E0 invalidate_schedule (mkState 1 (some 0) 6 [])).ctxs 0 =
      { keypair := 0
        packets := [{ data := 1, len := 100, sk := some 1, nonce := 6, ds := 0, header := none }]
        is_finished := false } ∧
    (packet_encrypt_worker K0 E0
        (run K0 E0 invalidate_schedule (mkState 1 (some 0) 6 []))).ctxs 0 =
      { keypair := 0
        packets :=
          [{ data := 1, len := 144, sk := some 1, nonce := 6, ds := 0, header := some (7, 6) }]
        is_finished := true } ∧
    ((packet_encrypt_worker K0 E0
        (run K0 E0 invalidate_schedule (mkState 1 (some 0) 6 []))).keypairs 0).sending.is_valid
      = false ∧
    Event.socket_send_skb_to_peer
        { data := 1, len := 144, sk := some 1, nonce := 6, ds := 0, header := some (7, 6) } 0 ∈
      (packet_tx_worker K0 E0 113 (packet_encrypt_worker K0 E0
        (run K0 E0 invalidate_schedule (mkState 1 (some 0) 6 [])))).events := by
  refine ⟨by decide, by decide, by decide, by decide, by decide, by decide⟩

/-- Claim C7, amended. Once the sending key of keypair `k` is invalid, then along every
schedule it stays invalid, its counter never changes (no nonce is assigned from it) and
every batch on the encrypt queue under `k` was already there; a drain with `k` current
submits nothing and relabels no staged datagram. The encrypt worker does not look at the
validity flag: it encrypts whatever batch it is given under the keypair of the batch. -/
theorem invalid_key_not_drained (K : Consts) (E : Env) (k : Nat) (s : State)
    (sched : List (Nat × Action))
    (hinv : (s.keypairs k).sending.is_valid = false) :
    ((run K E sched s).keypairs k).sending.is_valid = false ∧
    ((run K E sched s).keypairs k).sending.counter = (s.keypairs k).sending.counter ∧
    (∀ ctx ∈ (run K E sched s).encrypt_queue, ((run K E sched s).ctxs ctx).keypair = k →
      ctx ∈ s.encrypt_queue ∧ (s.ctxs ctx).keypair = k) ∧
    (∀ now : Nat, s.current_keypair = some k →
      (packet_send_staged_packets K E now s).encrypt_queue = s.encrypt_queue ∧
      (packet_send_staged_packets K E now s).tx_queue = s.tx_queue ∧
      (packet_send_staged_packets K E now s).ctxs = s.ctxs ∧
      (packet_send_staged_packets K E now s).next_ctx = s.next_ctx ∧
      (packet_send_staged_packets K E now s).staged_packet_queue.map Skb.nonce =
        s.staged_packet_queue.map Skb.nonce) ∧
    (∀ ctx : Nat, 0 < s.refcount →
      ((encrypt_ctx K E ctx s).ctxs ctx).packets =
        (s.ctxs ctx).packets.filterMap
          (fun skb => skb_encrypt K E skb (s.keypairs (s.ctxs ctx).keypair))) := by
  have h := run_kept K E k sched s hinv
  refine ⟨by rw [h.1]; exact hinv, by rw [h.1], h.2, ?_, ?_⟩
  · intro now hcur
    by_cases hne : s.staged_packet_queue = []
    · simp [packet_send_staged_packets, hne]
    · by_cases hr : (s.keypairs k).refcount = 0
      · have heq : packet_send_staged_packets K E now s =
            packet_send_queued_handshake_initiation K now false
              { s with
                staged_packet_queue :=
                  s.staged_packet_queue.map (fun skb => { skb with sk := none }) } := by
          simp [packet_send_staged_packets, hne, hcur, noise_keypair_get, hr, out_nokey,
            noise_keypair_put]
        obtain ⟨f1, -, -, f4, f5, f6, f7, -, -⟩ := queued_initiation_frame K now false
          { s with
            staged_packet_queue :=
              s.staged_packet_queue.map (fun skb => { skb with sk := none }) }
        rw [← heq] at f1 f4 f5 f6 f7
        refine ⟨f4, f5, f6, f7, ?_⟩
        rw [f1, List.map_map]; rfl
      · have heq : packet_send_staged_packets K E now s =
            packet_send_queued_handshake_initiation K now false
              (noise_keypair_put (some k)
                { (noise_keypair_get (some k) { s with staged_packet_queue := [] }).2 with
                  staged_packet_queue :=
                    s.staged_packet_queue.map (fun skb => { skb with sk := none }) }) := by
          simp [packet_send_staged_packets, hne, hcur, noise_keypair_get, hr, out_nokey,
            noise_keypair_put, hinv]
        obtain ⟨f1, -, -, f4, f5, f6, f7, -, -⟩ := queued_initiation_frame K now false
          (noise_keypair_put (some k)
            { (noise_keypair_get (some k) { s with staged_packet_queue := [] }).2 with
              staged_packet_queue :=
                s.staged_packet_queue.map (fun skb => { skb with sk := none }) })
        rw [← heq] at f1 f4 f5 f6 f7
        rw [f1, f4, f5, f6, f7]
        simp [noise_keypair_put, noise_keypair_get, hr, Function.comp_def]
  · intro ctx hp
    have hp0 : s.refcount ≠ 0 := by omega
    simp [encrypt_ctx, peer_rcu_get, peer_get, hp0, peer_put, kref_release]

/-- Witness of amended C7: drains and an encrypt run after the invalidation. -/
theorem invalid_key_not_drained_witness :
    ((run K0 E0
        [(112, Action.send_staged_packets), (113, Action.stage (mkSkb 4 100)),
         (114, Action.send_staged_packets), (115, Action.encrypt_worker)]
        (run K0 E0 invalidate_schedule (mkState 1 (some 0) 6 []))).keypairs 0).sending.counter
      = 9 :=
  (invalid_key_not_drained K0 E0 0 (run K0 E0 invalidate_schedule (mkState 1 (some 0) 6 []))
    [(112, Action.send_staged_packets), (113, Action.stage (mkSkb 4 100)),
     (114, Action.send_staged_packets), (115, Action.encrypt_worker)] (by decide)).2.1.trans
    (by decide)

/-! ## Timers at serial completion (C9) -/

theorem send_walk_spec (K : Consts) (E : Env) (q : List Skb) :
    ∀ d, send_walk K E q d =
      (q.map (fun skb => Event.socket_send_skb_to_peer skb (E.socket_send_skb_to_peer skb)),
       d || data_was_sent K E q) := by
  induction q with
  | nil => intro d; simp [send_walk, data_was_sent]
  | cons skb rest ih =>
    intro d
    simp only [send_walk, ih, List.map_cons, data_was_sent, List.any_cons]
    by_cases h1 : E.socket_send_skb_to_peer skb = 0 <;>
      by_cases h2 : skb.len = message_data_len K 0 <;>
      cases d <;> simp [h1, h2]

theorem create_data_done_events (K : Consts) (E : Env) (now : Nat) (queue : List Skb)
    (s : State) (hne : queue ≠ []) :
    (packet_create_data_done K E now queue s).events =
      s.events ++
        (Event.timers_any_authenticated_packet_traversal ::
          queue.map (fun skb =>
            Event.socket_send_skb_to_peer skb (E.socket_send_skb_to_peer skb))) ++
        (if data_was_sent K E queue then [Event.timers_data_sent] else []) := by
  unfold packet_create_data_done
  have he : queue.isEmpty = false := by
    cases queue with
    | nil => exact absurd rfl hne
    | cons a b => rfl
  simp only [he, Bool.false_eq_true, if_false, send_walk_spec, Bool.false_or]
  rw [keep_key_fresh_events]
  split_ifs <;> simp

theorem count_sends (queue : List Skb) (f : Skb → Int) (e : Event)
    (he : ∀ skb r, e ≠ Event.socket_send_skb_to_peer skb r) :
    (queue.map (fun skb => Event.socket_send_skb_to_peer skb (f skb))).count e = 0 := by
  rw [List.count_eq_zero]
  intro hmem
  rw [List.mem_map] at hmem
  obtain ⟨skb, _, h⟩ := hmem
  exact he skb (f skb) h.symm

/-- Claim C9. For a non-empty batch `packet_create_data_done` stamps the
any-authenticated-packet-traversal timer exactly once, hands every datagram to the socket
in order, and stamps the data-sent timer at most once, and exactly when some datagram of
the batch whose length differs from `message_data_len(0)` was sent successfully; a batch
of keepalives only never stamps data-sent. -/
theorem create_data_done_timers (K : Consts) (E : Env) (now : Nat) (queue : List Skb)
    (s : State) (hne : queue ≠ []) :
    (packet_create_data_done K E now queue s).events =
      s.events ++
        (Event.timers_any_authenticated_packet_traversal ::
          queue.map (fun skb =>
            Event.socket_send_skb_to_peer skb (E.socket_send_skb_to_peer skb))) ++
        (if data_was_sent K E queue then [Event.timers_data_sent] else []) ∧
    ((packet_create_data_done K E now queue s).events.drop s.events.length).count
      Event.timers_any_authenticated_packet_traversal = 1 ∧
    ((packet_create_data_done K E now queue s).events.drop s.events.length).count
      Event.timers_data_sent ≤ 1 ∧
    (((packet_create_data_done K E now queue s).events.drop s.events.length).count
        Event.timers_data_sent = 1 ↔
      ∃ skb ∈ queue, E.socket_send_skb_to_peer skb = 0 ∧ skb.len ≠ message_data_len K 0) ∧
    ((∀ skb ∈ queue, skb.len = message_data_len K 0) →
      ((packet_create_data_done K E now queue s).events.drop s.events.length).count
        Event.timers_data_sent = 0) := by
  have hev := create_data_done_events K E now queue s hne
  have hd : (packet_create_data_done K E now queue s).events.drop s.events.length =
      (Event.timers_any_authenticated_packet_traversal ::
          queue.map (fun skb =>
            Event.socket_send_skb_to_peer skb (E.socket_send_skb_to_peer skb))) ++
        (if data_was_sent K E queue then [Event.timers_data_sent] else []) := by
    rw [hev, List.append_assoc, List.drop_left]
  have hc1 := count_sends queue E.socket_send_skb_to_peer
    Event.timers_any_authenticated_packet_traversal (by intro _ _ h; cases h)
  have hc2 := count_sends queue E.socket_send_skb_to_peer
    Event.timers_data_sent (by intro _ _ h; cases h)
  have hiff : data_was_sent K E queue = true ↔
      ∃ skb ∈ queue, E.socket_send_skb_to_peer skb = 0 ∧ skb.len ≠ message_data_len K 0 := by
    simp [data_was_sent, List.any_eq_true]
  refine ⟨hev, ?_, ?_, ?_, ?_⟩
  · rw [hd]
    by_cases h : data_was_sent K E queue = true <;> simp [h, hc1]
  · rw [hd]
    by_cases h : data_was_sent K E queue = true <;> simp [h, hc2]
  · rw [hd, ← hiff]
    by_cases h : data_was_sent K E queue = true <;> simp [h, hc2]
  · intro hk
    have hno : ¬ (data_was_sent K E queue = true) := by
      rw [hiff]
      rintro ⟨skb, hm, -, h2⟩
      exact h2 (hk skb hm)
    rw [hd]
    simp [hno, hc2]

/-- Witness of C9: a batch of one encrypted keepalive. -/
theorem create_data_done_timers_witness :
    ((packet_create_data_done K0 E0 110
        [{ data := 0, len := 32, sk := none, nonce := 0, ds := 0, header := some (7, 0) }]
        (mkState 1 (some 0) 1 [])).events.drop (mkState 1 (some 0) 1 []).events.length).count
      Event.timers_any_authenticated_packet_traversal = 1 ∧
    ((packet_create_data_done K0 E0 110
        [{ data := 0, len := 32, sk := none, nonce := 0, ds := 0, header := some (7, 0) }]
        (mkState 1 (some 0) 1 [])).events.drop (mkState 1 (some 0) 1 []).events.length).count
      Event.timers_data_sent = 0 :=
  have h := create_data_done_timers K0 E0 110
    [{ data := 0, len := 32, sk := none, nonce := 0, ds := 0, header := some (7, 0) }]
    (mkState 1 (some 0) 1 []) (by decide)
  ⟨h.2.1, h.2.2.2.2 (by decide)⟩

/-! ## Removing a peer twice (C8) -/

theorem peer_put_r (s : State) : r_view (peer_put s) = r_view s := by
  by_cases h : s.refcount = 0 <;> by_cases h2 : s.refcount - 1 = 0 <;>
    simp [peer_put, kref_release, r_view, h, h2]

theorem noise_keypair_put_r (k : Option Nat) (s : State) :
    r_view (noise_keypair_put k s) = r_view s := by
  unfold noise_keypair_put
  cases k with
  | none => rfl
  | some k => simp only []; split_ifs <;> rfl

theorem queued_initiation_r (K : Consts) (now : Nat) (r : Bool) (s : State) :
    r_view (packet_send_queued_handshake_initiation K now r s) = r_view s := by
  rw [queued_initiation_eq]
  unfold r_view
  split_ifs <;> rfl

theorem keep_key_fresh_r (K : Consts) (now : Nat) (s : State) :
    r_view (keep_key_fresh K now s) = r_view s := by
  unfold keep_key_fresh
  simp only []
  split_ifs
  · exact queued_initiation_r _ _ _ _
  · rfl

theorem create_data_done_r (K : Consts) (E : Env) (now : Nat) (q : List Skb) (s : State) :
    r_view (packet_create_data_done K E now q s) = r_view s := by
  unfold packet_create_data_done
  simp only []
  split_ifs
  · rfl
  · rw [keep_key_fresh_r]; rfl
  · rw [keep_key_fresh_r]; rfl

theorem queue_dequeue_r (s : State) : r_view (queue_dequeue s) = r_view s := by
  unfold queue_dequeue
  cases s.tx_queue with
  | nil => rfl
  | cons ctx rest => rfl

theorem tx_ctx_r (K : Consts) (E : Env) (now : Nat) (ctx : Nat) (s : State) :
    r_view (tx_ctx K E now ctx s) = r_view s := by
  unfold tx_ctx
  simp only []
  have h1 := peer_put_r (packet_create_data_done K E now
    ((queue_dequeue s).ctxs ctx).packets (queue_dequeue s))
  rw [create_data_done_r, queue_dequeue_r] at h1
  simp only [r_view, Prod.mk.injEq] at h1 ⊢
  exact h1

theorem tx_worker_loop_r (K : Consts) (E : Env) (now : Nat) (fuel : Nat) :
    ∀ s, r_view (packet_tx_worker_loop K E now fuel s) = r_view s := by
  induction fuel with
  | zero => intro s; rfl
  | succ n ih =>
    intro s
    unfold packet_tx_worker_loop queue_first_per_peer
    cases h : s.tx_queue with
    | nil => rfl
    | cons ctx rest =>
      simp only []
      split_ifs
      · rw [ih, tx_ctx_r]
      · rfl

theorem encrypt_ctx_r (K : Consts) (E : Env) (ctx : Nat) (s : State) :
    r_view (encrypt_ctx K E ctx s) = r_view s := by
  unfold encrypt_ctx peer_rcu_get peer_get
  simp only []
  split_ifs
  · rfl
  · simp only []; rw [peer_put_r]; rfl

theorem encrypt_worker_loop_r (K : Consts) (E : Env) (fuel : Nat) :
    ∀ s, r_view (packet_encrypt_worker_loop K E fuel s) = r_view s := by
  induction fuel with
  | zero => intro s; rfl
  | succ n ih =>
    intro s
    unfold packet_encrypt_worker_loop queue_dequeue_per_device
    cases h : s.encrypt_queue with
    | nil => rfl
    | cons ctx rest => simp only []; rw [ih, encrypt_ctx_r]; rfl

theorem flush_packet_crypt_wq_r (K : Consts) (E : Env) (now : Nat) (s : State) :
    r_view (flush_packet_crypt_wq K E now s) = r_view s := by
  unfold flush_packet_crypt_wq packet_tx_worker packet_encrypt_worker
  rw [tx_worker_loop_r, encrypt_worker_loop_r]

theorem run_handshake_send_wq_r (K : Consts) (E : Env) (now : Nat) (s : State) :
    r_view (run_handshake_send_wq K E now s) = r_view s := by
  unfold run_handshake_send_wq packet_handshake_send_worker
  split_ifs
  · rw [peer_put_r]
    unfold packet_send_handshake_initiation
    simp only []
    split_ifs <;> rfl
  · rfl

theorem peer_remove_first (K : Consts) (E : Env) (now : Nat) (s : State)
    (hl : s.peer_list_linked = true) :
    r_view (peer_remove K E now (some ()) s) =
      (s.internal_id, none, none, false, s.peer_list.erase s.internal_id,
       s.peer_hashtable.erase s.internal_id) := by
  have hx : r_view (noise_keypairs_clear (noise_handshake_clear s)) =
      (s.internal_id, none, none, s.peer_list_linked, s.peer_list, s.peer_hashtable) := by
    unfold noise_keypairs_clear noise_handshake_clear
    rw [noise_keypair_put_r]; rfl
  unfold peer_remove
  simp only []
  generalize noise_keypairs_clear (noise_handshake_clear s) = x at hx
  simp only [r_view, Prod.mk.injEq] at hx
  obtain ⟨k1, k2, k3, k4, k5, k6⟩ := hx
  have hxl : x.peer_list_linked = true := by rw [k4]; exact hl
  simp only [list_del, hxl, if_true]
  rw [peer_put_r, run_handshake_send_wq_r, flush_packet_crypt_wq_r, flush_packet_crypt_wq_r]
  simp only [r_view, k1, k2, k3, k5, k6]

theorem peer_remove_unlinked (K : Consts) (E : Env) (now : Nat) (s : State)
    (hh : s.handshake = none) (hc : s.current_keypair = none)
    (hl : s.peer_list_linked = false) :
    peer_remove K E now (some ()) s = { s with fault := true } := by
  cases s
  simp only at hh hc hl
  subst hh hc hl
  simp [peer_remove, noise_handshake_clear, noise_keypairs_clear, noise_keypair_put, list_del]

/-- Counterexample to C8. A peer on the device list with two references: the first
`peer_remove` completes, leaving the count at 1 and the entry unlinked; the second
`peer_remove` on the same handle faults in `list_del`. -/
theorem second_remove_faults :
    (mkState 2 (some 0) 0 []).peer_list_linked = true ∧
    (peer_remove K0 E0 120 (some ()) (mkState 2 (some 0) 0 [])).fault = false ∧
    (peer_remove K0 E0 120 (some ()) (mkState 2 (some 0) 0 [])).peer_list_linked = false ∧
    (peer_remove K0 E0 120 (some ()) (mkState 2 (some 0) 0 [])).peer_list = [] ∧
    (peer_remove K0 E0 120 (some ()) (mkState 2 (some 0) 0 [])).peer_hashtable = [] ∧
    (peer_remove K0 E0 120 (some ()) (mkState 2 (some 0) 0 [])).refcount = 1 ∧
    (peer_remove K0 E0 121 (some ())
      (peer_remove K0 E0 120 (some ()) (mkState 2 (some 0) 0 []))).fault = true := by
  refine ⟨by decide, by decide, by decide, by decide, by decide, by decide, by decide⟩

/-- Claim C8, amended. `peer_remove` of the `NULL` handle does nothing. On a peer that is
on the device list the first `peer_remove` unlinks it from the peer list and the registry.
`peer_remove` has no already-removed guard: a second call on the same handle clears the
already cleared handshake and keypairs and then faults in `list_del` on the unlinked
entry, before the registry removal, the flushes and `peer_put`; so it is not safe, and up
to the fault it changes neither the peer list and registry nor the reference count. -/
theorem peer_remove_twice (K : Consts) (E : Env) (t1 t2 : Nat) (s : State)
    (hl : s.peer_list_linked = true) :
    peer_remove K E t1 none s = s ∧
    (peer_remove K E t1 (some ()) s).peer_list = s.peer_list.erase s.internal_id ∧
    (peer_remove K E t1 (some ()) s).peer_hashtable = s.peer_hashtable.erase s.internal_id ∧
    (peer_remove K E t1 (some ()) s).peer_list_linked = false ∧
    peer_remove K E t2 (some ()) (peer_remove K E t1 (some ()) s) =
      { peer_remove K E t1 (some ()) s with fault := true } ∧
    (peer_remove K E t2 (some ()) (peer_remove K E t1 (some ()) s)).fault = true ∧
    (peer_remove K E t2 (some ()) (peer_remove K E t1 (some ()) s)).peer_list =
      (peer_remove K E t1 (some ()) s).peer_list ∧
    (peer_remove K E t2 (some ()) (peer_remove K E t1 (some ()) s)).peer_hashtable =
      (peer_remove K E t1 (some ()) s).peer_hashtable ∧
    (peer_remove K E t2 (some ()) (peer_remove K E t1 (some ()) s)).refcount =
      (peer_remove K E t1 (some ()) s).refcount := by
  have h1 := peer_remove_first K E t1 s hl
  simp only [r_view, Prod.mk.injEq] at h1
  obtain ⟨-, a2, a3, a4, a5, a6⟩ := h1
  have h2 := peer_remove_unlinked K E t2 (peer_remove K E t1 (some ()) s) a2 a3 a4
  refine ⟨rfl, a5, a6, a4, h2, ?_, ?_, ?_, ?_⟩ <;> rw [h2]

/-- Witness of amended C8: a peer on the device list with three references and a staged
datagram. -/
theorem peer_remove_twice_witness :
    (peer_remove K0 E0 121 (some ())
      (peer_remove K0 E0 120 (some ()) (mkState 3 (some 0) 0 [mkSkb 1 100]))).fault = true ∧
    (peer_remove K0 E0 121 (some ())
      (peer_remove K0 E0 120 (some ()) (mkState 3 (some 0) 0 [mkSkb 1 100]))).refcount = 2 :=
  have h := peer_remove_twice K0 E0 120 121 (mkState 3 (some 0) 0 [mkSkb 1 100]) rfl
  ⟨h.2.2.2.2.2.1, h.2.2.2.2.2.2.2.2.trans (by decide)⟩

/-! ## Reference counts along the send path (C10) -/

theorem peer_put_keypairs (s : State) : (peer_put s).keypairs = s.keypairs := by
  by_cases h : s.refcount = 0 <;> by_cases h2 : s.refcount - 1 = 0 <;>
    simp [peer_put, kref_release, h, h2]

theorem keep_key_fresh_keypairs (K : Consts) (now : Nat) (s : State) :
    (keep_key_fresh K now s).keypairs = s.keypairs := by
  unfold keep_key_fresh
  simp only []
  split_ifs
  · exact (queued_initiation_frame K now false s).2.1
  · rfl

/-- The leak behind C10 on every input of this shape: a datagram drained from an idle
peer, encrypted and completed leaves the keypair with one reference more than before. -/
theorem pipeline_keeps_keypair_reference (K : Consts) (E : Env) (t1 t2 t3 : Nat) (s : State)
    (k c : Nat) (skb enc : Skb)
    (hR : K.REJECT_AFTER_MESSAGES < U64)
    (hcur : s.current_keypair = some k)
    (hvalid : (s.keypairs k).sending.is_valid = true)
    (hcnt : (s.keypairs k).sending.counter = c)
    (hsum : c + 1 ≤ K.REJECT_AFTER_MESSAGES)
    (hkref : 0 < (s.keypairs k).refcount)
    (hpref : 0 < s.refcount)
    (hst : s.staged_packet_queue = [])
    (htx : s.tx_queue = [])
    (heq : s.encrypt_queue = [])
    (hfresh : time_is_before_eq_jiffies64 t1
      (add64 (s.keypairs k).sending.birthdate K.REJECT_AFTER_TIME) = false)
    (halloc : E.kmem_cache_alloc s.next_ctx = true)
    (henq : E.queue_enqueue_ok s.next_ctx = true)
    (henc : skb_encrypt K E { skb with ds := E.ip_tunnel_ecn_encap skb, nonce := c }
      (s.keypairs k) = some enc) :
    ((run K E [(t1, Action.stage skb), (t1, Action.send_staged_packets),
        (t2, Action.encrypt_worker), (t3, Action.tx_worker)] s).keypairs k).refcount =
      (s.keypairs k).refcount + 1 ∧
    (run K E [(t1, Action.stage skb), (t1, Action.send_staged_packets),
        (t2, Action.encrypt_worker), (t3, Action.tx_worker)] s).tx_queue = [] := by
  rw [one_datagram_pipeline K E t1 t2 t3 s k c skb enc hR hcur hvalid hcnt hsum hkref hpref hst
    htx heq hfresh halloc henq henc]
  constructor
  · show ((peer_put _).keypairs k).refcount = _
    rw [peer_put_keypairs, keep_key_fresh_keypairs]
    simp [at_completion]
  · show (peer_put _).tx_queue = _
    have h1 := (peer_put_q (keep_key_fresh K t3 (at_completion K E k c enc s))).1
    rw [(keep_key_fresh_q _ _ _).1] at h1
    simp only [q_view, Prod.mk.injEq] at h1
    rw [h1.1]
    simp [at_completion]

/-- Claim C10, the code at the failing input. One datagram is drained, encrypted and
completed: the batch is submitted and surfaced, the peer count is back at 1, and the
keypair count is 2, one above its value before the drain. When the allocation of the
batch fails instead, `packet_create_data` releases both references. -/
theorem keypair_reference_leaked :
    (mkState 1 (some 0) 0 []).refcount = 1 ∧
    ((mkState 1 (some 0) 0 []).keypairs 0).refcount = 1 ∧
    submitted (run K0 E0
      [(110, Action.stage (mkSkb 1 100)), (110, Action.send_staged_packets),
       (111, Action.encrypt_worker), (112, Action.tx_worker)] (mkState 1 (some 0) 0 [])) = [0] ∧
    surfaced (run K0 E0
      [(110, Action.stage (mkSkb 1 100)), (110, Action.send_staged_packets),
       (111, Action.encrypt_worker), (112, Action.tx_worker)] (mkState 1 (some 0) 0 [])) = [0] ∧
    (run K0 E0
      [(110, Action.stage (mkSkb 1 100)), (110, Action.send_staged_packets),
       (111, Action.encrypt_worker), (112, Action.tx_worker)]
      (mkState 1 (some 0) 0 [])).tx_queue = [] ∧
    (run K0 E0
      [(110, Action.stage (mkSkb 1 100)), (110, Action.send_staged_packets),
       (111, Action.encrypt_worker), (112, Action.tx_worker)]
      (mkState 1 (some 0) 0 [])).refcount = 1 ∧
    ((run K0 E0
      [(110, Action.stage (mkSkb 1 100)), (110, Action.send_staged_packets),
       (111, Action.encrypt_worker), (112, Action.tx_worker)]
      (mkState 1 (some 0) 0 [])).keypairs 0).refcount = 2 ∧
    ((run K0 E_noalloc
      [(110, Action.stage (mkSkb 1 100)), (110, Action.send_staged_packets)]
      (mkState 1 (some 0) 0 [])).keypairs 0).refcount = 1 ∧
    (run K0 E_noalloc
      [(110, Action.stage (mkSkb 1 100)), (110, Action.send_staged_packets)]
      (mkState 1 (some 0) 0 [])).refcount = 1 := by
  refine ⟨by decide, by decide, by decide, by decide, by decide, by decide, by decide,
    by decide, by decide⟩

end WireGuard
